import Mathlib

/-!
Shallow embedding of the AmoCRM → Google Contacts synchronisation service
(`src/app`), used to check the natural-language specification against the
code.  Python strings are modelled as `List Char` where character-level
operations (strip, lower, slicing, digit filtering) matter, and as Lean
`String` where only equality is used (resource names, labels).  Python
`None` is modelled by `Option`; Python truthiness of an optional string is
`pyTruthy` below (absent or empty is falsy).  Dicts with a fixed set of
keys become structures; list entries that the code guards with
`isinstance(..., dict)` become inductives with a `malformed` constructor.
-/

namespace AmoSync

abbrev Str := List Char

/-- Python truthiness of an optional string: `None` and the empty string
are falsy. -/
def pyTruthy : Option Str → Bool
  | none => false
  | some s => s ≠ []

/-- Python truthiness for optional opaque values modelled as `String`. -/
def pyTruthyS : Option String → Bool
  | none => false
  | some s => s ≠ ""

/-- Whitespace characters recognised by Python `str.strip()` (ASCII
part): space, tab, newline, carriage return, vertical tab, form feed. -/
def pyIsSpace (c : Char) : Bool :=
  c.toNat = 32 || c.toNat = 9 || c.toNat = 10 || c.toNat = 13 ||
    c.toNat = 11 || c.toNat = 12

/-- Python `str.strip()`: drop leading and trailing whitespace. -/
def pyStrip (s : Str) : Str :=
  ((s.dropWhile pyIsSpace).reverse.dropWhile pyIsSpace).reverse

/-- Python `str.lower()` on one character (ASCII range; the service only
feeds ASCII contact data through this path). -/
def pyLowerChar (c : Char) : Char :=
  if 65 ≤ c.toNat ∧ c.toNat ≤ 90 then Char.ofNat (c.toNat + 32) else c

/-- Python `str.lower()`. -/
def pyLower (s : Str) : Str := s.map pyLowerChar

/-- The code-point ranges of Unicode category Nd (decimal digit) in
Unicode 14.0.0, the table of the CPython the service runs on. -/
def ndDigitRanges : List (Nat × Nat) :=
  [(48, 57), (1632, 1641), (1776, 1785), (1984, 1993),
   (2406, 2415), (2534, 2543), (2662, 2671), (2790, 2799),
   (2918, 2927), (3046, 3055), (3174, 3183), (3302, 3311),
   (3430, 3439), (3558, 3567), (3664, 3673), (3792, 3801),
   (3872, 3881), (4160, 4169), (4240, 4249), (6112, 6121),
   (6160, 6169), (6470, 6479), (6608, 6617), (6784, 6793),
   (6800, 6809), (6992, 7001), (7088, 7097), (7232, 7241),
   (7248, 7257), (42528, 42537), (43216, 43225), (43264, 43273),
   (43472, 43481), (43504, 43513), (43600, 43609), (44016, 44025),
   (65296, 65305), (66720, 66729), (68912, 68921), (69734, 69743),
   (69872, 69881), (69942, 69951), (70096, 70105), (70384, 70393),
   (70736, 70745), (70864, 70873), (71248, 71257), (71360, 71369),
   (71472, 71481), (71904, 71913), (72016, 72025), (72784, 72793),
   (73040, 73049), (73120, 73129), (92768, 92777), (92864, 92873),
   (93008, 93017), (120782, 120831), (123200, 123209), (123632, 123641),
   (125264, 125273), (130032, 130041)]

def pyIsDigitNd (c : Char) : Bool :=
  ndDigitRanges.any fun r => r.1 ≤ c.toNat && c.toNat ≤ r.2

/-- `app/utils/phone.py` `normalize_phone` (with the default
`min_digits = 10`): strip characters outside Unicode category Nd (the
set `re.sub(r"\D", "", ...)` removes), drop a leading `00`, rewrite a
leading `8` of an 11-digit number to `7`, reject anything shorter than
10 digits, and prefix `+`.  The `00` and `8` comparisons are against
the exact ASCII characters, as in the source. -/
def normalize_phone (e164 : Str) : Option Str :=
  if e164 = [] then none
  else
    let digits := e164.filter pyIsDigitNd
    if digits = [] then none
    else
      let digits := if digits.take 2 = ['0', '0'] then digits.drop 2 else digits
      let digits :=
        if digits.head? = some '8' ∧ digits.length = 11 then '7' :: digits.tail
        else digits
      if digits.length < 10 then none else some ('+' :: digits)

/-- `normalise_phone` as worded by the specification (section 4.1): strip
non-digits (digits being what the code's Unicode-aware `\D` keeps); if
the result starts with `00`, drop those two zeros; if the result is 11
digits starting with `8`, replace the leading `8` with `7`; if fewer
than 10 digits remain return null, else prefix `+`. -/
def normalise_phone_spec (raw : Str) : Option Str :=
  let digits := raw.filter pyIsDigitNd
  let digits := if digits.take 2 = ['0', '0'] then digits.drop 2 else digits
  let digits :=
    if digits.head? = some '8' ∧ digits.length = 11 then '7' :: digits.tail
    else digits
  if digits.length < 10 then none else some ('+' :: digits)

/-- `app/utils/__init__.py` `normalize_email`: trim then lowercase. -/
def normalize_email (email : Str) : Str := pyLower (pyStrip email)

/-- Python set collection, modelled as a duplicate-free list; only
membership is ever observed. -/
def pyDedup (l : List Str) : List Str := l.dedup

/-- `app/services/match.py` `MatchKeys`: normalised phone and email sets.
Sets are modelled as duplicate-free lists; only membership matters. -/
structure MatchKeys where
  phones : List Str
  emails : List Str
deriving DecidableEq, Repr

/-- `MatchKeys.from_raw`: keep each truthy raw phone whose normalisation
succeeds, and the normalisation of each truthy raw email.  No validity
check is applied to emails. -/
def MatchKeys.from_raw (phones emails : List Str) : MatchKeys :=
  { phones := pyDedup (phones.filterMap fun v =>
      if v = [] then none else normalize_phone v)
    emails := pyDedup ((emails.filter (· ≠ [])).map normalize_email) }

/-- `MatchKeys.__bool__`: truthy iff either key set is non-empty. -/
def MatchKeys.isTruthy (k : MatchKeys) : Bool :=
  k.phones ≠ [] || k.emails ≠ []

/-- A `phoneNumbers` entry of a Google person record.  `malformed` models
an entry that is not a dict (the code skips those).  `metadata` is an
opaque payload; an empty string models a falsy (empty) value. -/
inductive PhoneEntry
  | valid (value : Option Str) (ptype : Option String) (metadata : Option String)
      (formattedType : Option String)
  | malformed
deriving DecidableEq, Repr

/-- An `emailAddresses` entry. -/
inductive EmailEntry
  | valid (value : Option Str) (etype : Option String) (metadata : Option String)
  | malformed
deriving DecidableEq, Repr

/-- A `memberships` entry.  `valid` is a dict whose
`contactGroupMembership` is itself a dict carrying an optional
`contactGroupResourceName`; `oddDict` is a dict without such a sub-dict;
`notDict` is not a dict at all. -/
inductive MembershipEntry
  | valid (group : Option String)
  | oddDict
  | notDict
deriving DecidableEq, Repr

/-- A `biographies` entry. -/
inductive BioEntry
  | valid (value : Option String)
  | malformed
deriving DecidableEq, Repr

/-- An `externalIds` entry. -/
inductive ExternalIdEntry
  | valid (idType : Option String) (value : Option String) (metadata : Option String)
  | malformed
deriving DecidableEq, Repr

/-- A Google person record, restricted to the fields the reconciliation
pipeline reads or writes.  A missing list field is modelled as `[]` (the
code reads them with `person.get(field, []) or []`), and any further dict
keys (e.g. `organizations`) are collected in `otherFields` as opaque
key/value pairs. -/
@[ext]
structure Person where
  resourceName : Option String := none
  etag : Option String := none
  phoneNumbers : List PhoneEntry := []
  emailAddresses : List EmailEntry := []
  memberships : List MembershipEntry := []
  biographies : List BioEntry := []
  externalIds : List ExternalIdEntry := []
  names : List String := []
  otherFields : List (String × String) := []
deriving DecidableEq, Repr

/-- Timestamp extracted from `metadata.sources[].updateTime`.  `seconds`
is the wall-clock value in seconds since the Unix epoch read as UTC;
`aware` records whether the parsed datetime carried a timezone (a naive
value is interpreted as UTC when compared, which leaves `seconds`
unchanged). -/
structure GDateTime where
  seconds : Int
  aware : Bool
deriving DecidableEq, Repr

/-- `app/services/match.py` `MatchCandidate`. -/
structure MatchCandidate where
  resource_name : String
  person : Person
  matched_phones : List Str
  matched_emails : List Str
  update_time : Option GDateTime
deriving DecidableEq, Repr

/-- `app/services/match.py` `MatchContext`. -/
structure MatchContext where
  amo_contact_id : Option Int := none
  group_resource_name : Option String := none
  mapped_resource_name : Option String := none
deriving DecidableEq, Repr

/-- `MatchCandidate.has_exact_phone`: the intersection of
`matched_phones` with the keys' phones is non-empty. -/
def MatchCandidate.hasExactPhone (c : MatchCandidate) (keys : MatchKeys) : Bool :=
  c.matched_phones.any (fun p => keys.phones.contains p)

/-- `MatchCandidate.in_group`: false for a falsy group name, else true
iff some membership entry references the group. -/
def MatchCandidate.inGroup (c : MatchCandidate) (group : Option String) : Bool :=
  if ¬ pyTruthyS group then false
  else c.person.memberships.any fun m =>
    match m with
    | .valid g => g = group
    | _ => false

/-- `str` of a Python int, for comparing `externalIds` values against
`str(amo_contact_id)`. -/
def intStr (i : Int) : String := toString i

/-- `MatchCandidate.has_external_id`.  The source iterates over the
entries: non-dict entries and entries whose `type` is not `amo_id` are
skipped; with a target id the first entry whose value equals
`str(amo_contact_id)` wins; without a target any tagged entry with a
truthy value counts.  The loop is equivalent to the `any` below. -/
def Person.hasExternalId (p : Person) (amoContactId : Option Int) : Bool :=
  match amoContactId with
  | some i =>
    p.externalIds.any fun e =>
      match e with
      | .valid t v _ => t = some "amo_id" ∧ v = some (intStr i)
      | .malformed => false
  | none =>
    p.externalIds.any fun e =>
      match e with
      | .valid t v _ => t = some "amo_id" ∧ pyTruthyS v
      | .malformed => false

/-- `choose_primary`'s `_score`: a naive `update_time` is re-tagged as
UTC (same wall-clock seconds) and a missing one becomes the Unix epoch. -/
def scoreOf (c : MatchCandidate) : Int :=
  match c.update_time with
  | some d => d.seconds
  | none => 0

/-- Python `max(xs, key=f)`: the first element attaining the maximal key
(later elements replace the current best only when strictly greater). -/
def pyMaxBy (f : α → Int) : List α → Option α
  | [] => none
  | x :: xs => some (xs.foldl (fun best y => if f y > f best then y else best) x)

/-- The `if non-empty then narrowed else previous` pattern each
`choose_primary` filter follows. -/
def keepNonempty [DecidableEq α] (filtered base : List α) : List α :=
  if filtered ≠ [] then filtered else base

/-- `app/services/match.py` `choose_primary`: successive narrowing
filters (exact phone, external id, group, mapped resource), each kept
only when it leaves at least one candidate, then the recency tiebreak. -/
def choose_primary (candidates : List MatchCandidate) (keys : MatchKeys)
    (context : MatchContext) : Option MatchCandidate :=
  if candidates = [] then none
  else
    let ordered := candidates
    let ordered := keepNonempty (ordered.filter (fun c => c.hasExactPhone keys)) ordered
    let ordered := keepNonempty
      (ordered.filter (fun c => c.person.hasExternalId context.amo_contact_id)) ordered
    let groupMatches := ordered.filter (fun c => c.inGroup context.group_resource_name)
    let ordered :=
      if pyTruthyS context.group_resource_name ∧ groupMatches ≠ [] then groupMatches
      else ordered
    let ordered :=
      if pyTruthyS context.mapped_resource_name then
        keepNonempty
          (ordered.filter (fun c => some c.resource_name = context.mapped_resource_name))
          ordered
      else ordered
    pyMaxBy scoreOf ordered

/-- Filter 1 of the specification's `choose_primary` chain: candidates
with a phone intersecting the keys' phones, kept only when non-empty. -/
def chainStep1 (keys : MatchKeys) (l : List MatchCandidate) : List MatchCandidate :=
  keepNonempty (l.filter (fun c => c.hasExactPhone keys)) l

/-- Filter 2: candidates whose external id matches the source contact id
(or any tagged entry when the id is unknown), kept only when
non-empty. -/
def chainStep2 (ctx : MatchContext) (l : List MatchCandidate) : List MatchCandidate :=
  keepNonempty (l.filter (fun c => c.person.hasExternalId ctx.amo_contact_id)) l

/-- Filter 3: candidates in the configured group, applied only when a
group is configured and it leaves at least one candidate. -/
def chainStep3 (ctx : MatchContext) (l : List MatchCandidate) : List MatchCandidate :=
  if pyTruthyS ctx.group_resource_name ∧
      l.filter (fun c => c.inGroup ctx.group_resource_name) ≠ [] then
    l.filter (fun c => c.inGroup ctx.group_resource_name)
  else l

/-- Filter 4: the candidate equal to the mapped resource, applied only
when a mapped resource is known and it leaves at least one candidate. -/
def chainStep4 (ctx : MatchContext) (l : List MatchCandidate) : List MatchCandidate :=
  if pyTruthyS ctx.mapped_resource_name then
    keepNonempty (l.filter (fun c => some c.resource_name = ctx.mapped_resource_name)) l
  else l

/-- The successive filter chain of `choose_primary` as worded by the
specification: each filter is kept only if it leaves at least one
candidate. -/
def choose_primary_filter_chain (candidates : List MatchCandidate) (keys : MatchKeys)
    (context : MatchContext) : List MatchCandidate :=
  chainStep4 context (chainStep3 context (chainStep2 context (chainStep1 keys candidates)))

/-- Rebuilt phone entry of `transform._deduplicate_phones`: the value is
the normalised number and `type` / `metadata` / `formattedType` are kept
only when truthy. -/
def rebuildPhone (normalized : Str) (ptype metadata formattedType : Option String) :
    PhoneEntry :=
  .valid (some normalized)
    (if pyTruthyS ptype then ptype else none)
    (if pyTruthyS metadata then metadata else none)
    (if pyTruthyS formattedType then formattedType else none)

/-- Inner loop of `transform._deduplicate_phones` over the flattened
entry list, threading the `seen` set of normalised values. -/
def dedupPhonesAux (seen : List Str) : List PhoneEntry → List PhoneEntry
  | [] => []
  | .malformed :: rest => dedupPhonesAux seen rest
  | .valid v t m ft :: rest =>
    match v with
    | none => dedupPhonesAux seen rest
    | some value =>
      if value = [] then dedupPhonesAux seen rest
      else
        match normalize_phone value with
        | none => dedupPhonesAux seen rest
        | some n =>
          if n ∈ seen then dedupPhonesAux seen rest
          else rebuildPhone n t m ft :: dedupPhonesAux (n :: seen) rest

/-- `transform._deduplicate_phones`: iterate over every person's phone
entries in order, dropping malformed entries, falsy values, values that
fail normalisation and repeated normalised values. -/
def deduplicate_phones (persons : List Person) : List PhoneEntry :=
  dedupPhonesAux [] (persons.map Person.phoneNumbers).flatten

/-- Rebuilt email entry of `transform._deduplicate_emails`: the original
(display-cased) value is kept; `type` / `metadata` only when truthy. -/
def rebuildEmail (value : Str) (etype metadata : Option String) : EmailEntry :=
  .valid (some value)
    (if pyTruthyS etype then etype else none)
    (if pyTruthyS metadata then metadata else none)

/-- Inner loop of `transform._deduplicate_emails`, threading the `seen`
set of normalised values. -/
def dedupEmailsAux (seen : List Str) : List EmailEntry → List EmailEntry
  | [] => []
  | .malformed :: rest => dedupEmailsAux seen rest
  | .valid v t m :: rest =>
    match v with
    | none => dedupEmailsAux seen rest
    | some value =>
      if value = [] then dedupEmailsAux seen rest
      else
        let n := normalize_email value
        if n ∈ seen then dedupEmailsAux seen rest
        else rebuildEmail value t m :: dedupEmailsAux (n :: seen) rest

/-- `transform._deduplicate_emails`. -/
def deduplicate_emails (persons : List Person) : List EmailEntry :=
  dedupEmailsAux [] (persons.map Person.emailAddresses).flatten

/-- Inner loop of `transform._merge_memberships`, threading the `seen`
set of group resource names.  Entries that are not dicts, lack a valid
`contactGroupMembership` dict, carry a falsy group name, or repeat a
group are dropped; kept entries are deep copies (identity here). -/
def mergeMembershipsAux (seen : List String) : List MembershipEntry → List MembershipEntry
  | [] => []
  | .notDict :: rest => mergeMembershipsAux seen rest
  | .oddDict :: rest => mergeMembershipsAux seen rest
  | .valid g :: rest =>
    match g with
    | none => mergeMembershipsAux seen rest
    | some name =>
      if name = "" then mergeMembershipsAux seen rest
      else if name ∈ seen then mergeMembershipsAux seen rest
      else .valid (some name) :: mergeMembershipsAux (name :: seen) rest

/-- `transform._merge_memberships`: dedupe by group resource and append
the `ensure_group` entry when the group is truthy and not yet present. -/
def merge_memberships (persons : List Person) (ensureGroup : Option String) :
    List MembershipEntry :=
  let merged := mergeMembershipsAux [] (persons.map Person.memberships).flatten
  let seenNames := merged.filterMap fun m =>
    match m with
    | .valid g => g
    | _ => none
  match ensureGroup with
  | some g =>
    if g ≠ "" ∧ g ∉ seenNames then
      merged ++ [.valid (some g)]
    else merged
  | none => merged

/-- First truthy biography value of a person
(`transform._merge_biographies`, inner loop over `note`). -/
def firstBioValue (entries : List BioEntry) : Option String :=
  match entries with
  | [] => none
  | .valid (some v) :: rest => if v ≠ "" then some v else firstBioValue rest
  | _ :: rest => firstBioValue rest

/-- Primary's biography entries deduplicated by value
(first loop of `transform._merge_biographies`). -/
def dedupBiosAux (seen : List String) : List BioEntry → List BioEntry
  | [] => []
  | .malformed :: rest => dedupBiosAux seen rest
  | .valid v :: rest =>
    match v with
    | none => dedupBiosAux seen rest
    | some value =>
      if value = "" then dedupBiosAux seen rest
      else if value ∈ seen then dedupBiosAux seen rest
      else .valid (some value) :: dedupBiosAux (value :: seen) rest

/-- Second loop of `transform._merge_biographies`: take each other
person's first biography value, skip repeats, and prefix the merged-from
marker built from the person's resource name (falling back to
`unknown`). -/
def mergeOtherBios (seen : List String) : List Person → List BioEntry
  | [] => []
  | p :: rest =>
    match firstBioValue p.biographies with
    | none => mergeOtherBios seen rest
    | some v =>
      if v ∈ seen then mergeOtherBios seen rest
      else
        let resource := if pyTruthyS p.resourceName then p.resourceName.getD "unknown"
          else "unknown"
        .valid (some ("[Merged from " ++ resource ++ "]\n" ++ v)) ::
          mergeOtherBios (v :: seen) rest

/-- Values seen by `dedupBiosAux` (needed to seed the second loop). -/
def bioSeenValues (entries : List BioEntry) : List String :=
  (dedupBiosAux [] entries).filterMap fun b =>
    match b with
    | .valid v => v
    | _ => none

/-- `transform._merge_biographies`. -/
def merge_biographies (primary : Person) (others : List Person) : List BioEntry :=
  let base := dedupBiosAux [] primary.biographies
  base ++ mergeOtherBios (bioSeenValues primary.biographies) others

/-- `transform.union_fields`: build a fresh record from the deduplicated
phone numbers, email addresses, memberships (with the ensure-group
entry), biographies and the primary's names.  Every other field of the
inputs is absent from the result; an empty merged list models the absent
dict key. -/
def union_fields (primary : Person) (others : List Person)
    (ensureGroup : Option String) : Person :=
  let persons := primary :: others
  { resourceName := none
    etag := none
    phoneNumbers := deduplicate_phones persons
    emailAddresses := deduplicate_emails persons
    memberships := merge_memberships persons ensureGroup
    biographies := merge_biographies primary others
    externalIds := []
    names := if primary.names ≠ [] then primary.names else []
    otherFields := [] }

/-- Inner loop of `merge._merge_external_ids`, threading the `seen` set
of `(type, value)` pairs. -/
def mergeExternalIdsAux (seen : List (Option String × Option String)) :
    List ExternalIdEntry → List ExternalIdEntry
  | [] => []
  | .malformed :: rest => mergeExternalIdsAux seen rest
  | .valid t v m :: rest =>
    if (t, v) ∈ seen then mergeExternalIdsAux seen rest
    else
      .valid t v (if pyTruthyS m then m else none) ::
        mergeExternalIdsAux ((t, v) :: seen) rest

/-- `merge._merge_external_ids`: dedupe by `(type, value)` across all
persons, keeping `metadata` only when truthy. -/
def merge_external_ids (persons : List Person) : List ExternalIdEntry :=
  mergeExternalIdsAux [] (persons.map Person.externalIds).flatten

/-- An outbound effect of the reconciliation pipeline: a directory call
or a store write, recorded in issue order. -/
inductive Op
  | updateContact (resource : String) (etag : String)
  | batchDelete (resources : List String)
  | saveLink (amoId : String) (resource : String)
  | remapLinks (target : String) (sources : List String)
deriving DecidableEq, Repr

/-- `merge.merge_contacts` as an effect trace.  Duplicates equal to the
primary are filtered out; an empty remainder returns the primary with no
effects; a primary without a truthy etag raises `MissingEtagError`
before any request; otherwise the merged payload is written with the
primary's etag, the duplicates are batch-deleted, and their stored links
are remapped to the primary.  The candidate returned from the refreshed
API response carries the primary's resource name. -/
def merge_contacts (primary : MatchCandidate) (others : List MatchCandidate) :
    Except String (MatchCandidate × List Op) :=
  let duplicates := others.filter (fun c => c.resource_name ≠ primary.resource_name)
  if duplicates = [] then .ok (primary, [])
  else
    let duplicateNames := duplicates.map MatchCandidate.resource_name
    if ¬ pyTruthyS primary.person.etag then .error "missing_etag"
    else
      .ok (primary,
        [.updateContact primary.resource_name (primary.person.etag.getD ""),
         .batchDelete duplicateNames,
         .remapLinks primary.resource_name duplicateNames])

/-- Decision component of `SyncEngine.plan` (lines 127-173): the action,
reason and `preflight_blocked_create` flag computed from the candidate
list and the chosen primary. -/
structure PlanBits where
  action : String
  reason : String
  preflight_blocked_create : Bool
deriving DecidableEq, Repr

/-- `SyncEngine.plan`, decision part.  `preflight_blocked` is the bare
non-emptiness of the candidate list; the final flag is
`preflight_blocked and action != "create"`. -/
def plan_decision (candidates : List MatchCandidate) (primary : Option MatchCandidate)
    (autoMerge : Bool) : PlanBits :=
  let preflightBlocked := candidates ≠ []
  let duplicates :=
    if candidates ≠ [] then
      match primary with
      | some p => candidates.filter (fun c => c.resource_name ≠ p.resource_name)
      | none => []
    else []
  let ar : String × String :=
    match primary with
    | none => if candidates = [] then ("create", "no_candidates") else ("create", "no_primary")
    | some _ =>
      if duplicates ≠ [] ∧ autoMerge then ("merge", "duplicates_detected")
      else if duplicates = [] then ("update", "single_candidate")
      else ("update", "duplicates_skip_merge")
  { action := ar.1
    reason := ar.2
    preflight_blocked_create := preflightBlocked ∧ ar.1 ≠ "create" }

/-- Primary selection in `SyncEngine.plan` (line 128): `choose_primary`
is consulted only when candidates exist. -/
def plan_primary (candidates : List MatchCandidate) (keys : MatchKeys)
    (context : MatchContext) : Option MatchCandidate :=
  if candidates ≠ [] then choose_primary candidates keys context else none

/-- Outcome of one `SyncEngine._apply_once` attempt. -/
inductive AttemptOutcome
  | ok (action : String) (resource : Option String)
  | recoverable (reason : String)
deriving DecidableEq, Repr

/-- `SyncEngine.apply`'s retry loop, indexed by the number of retries
still allowed.  The source keeps a counter that starts at 0, increments
on every `RecoverableSyncError` and re-raises once it exceeds 3, so the
counter value `attempt` corresponds to `3 - retriesLeft` here: the first
invocation runs with 3 retries in hand and the error of the fifth
would-be invocation never happens because the fourth failure re-raises.
Each retry recomputes the plan from the same contact; `outcomes idx`
abstracts the result of the `idx`-th `_apply_once` invocation against
the refreshed plan. -/
def applyRetries (outcomes : Nat → AttemptOutcome) (idx retriesLeft : Nat) :
    Nat × Except String (String × Option String) :=
  match retriesLeft, outcomes idx with
  | _, .ok action resource => (idx + 1, .ok (action, resource))
  | 0, .recoverable reason => (idx + 1, .error reason)
  | n + 1, .recoverable _ => applyRetries outcomes (idx + 1) n

/-- `SyncEngine.apply`: run the attempt loop from the first invocation
with the source's bound of 3 retries.  The first component is the number
of `_apply_once` invocations performed. -/
def apply_model (outcomes : Nat → AttemptOutcome) :
    Nat × Except String (String × Option String) :=
  applyRetries outcomes 0 3

/-- `google_client._normalize_update_fields` on a sequence argument: the
set of non-empty field names. -/
def normalize_update_fields (fields : List String) : List String :=
  (fields.filter (· ≠ "")).dedup

/-- Python `set.add` on the list-modelled set. -/
def setInsert (x : String) (s : List String) : List String :=
  if x ∈ s then s else s ++ [x]

/-- Loop of `google_client._format_group_memberships`: keep every dict
entry (deep-copied), drop non-dict entries, and record whether some
entry already references the target group. -/
def fgmAux (resource : String) : List MembershipEntry → List MembershipEntry × Bool
  | [] => ([], false)
  | .notDict :: rest => fgmAux resource rest
  | .oddDict :: rest =>
    let (l, f) := fgmAux resource rest
    (.oddDict :: l, f)
  | .valid g :: rest =>
    let (l, f) := fgmAux resource rest
    (.valid g :: l, f || g = some resource)

/-- `google_client._format_group_memberships`: append the membership for
`resource` when no existing entry references it. -/
def format_group_memberships (existing : List MembershipEntry) (resource : String) :
    List MembershipEntry :=
  let (l, found) := fgmAux resource existing
  if found then l else l ++ [.valid (some resource)]

/-- The PATCH `updateContact` request assembled by
`google_client.update_contact`: the body's etag (present only when the
caller passed a truthy one), its memberships, and the
`updatePersonFields` mask modelled as the set of field names. -/
structure GCRequest where
  resource : String
  payloadEtag : Option String
  payloadMemberships : List MembershipEntry
  updateFields : List String
deriving DecidableEq, Repr

/-- `google_client.update_contact` (lines 193-225).  `groupNameSetting`
is the raw `settings.google_contact_group_name` and `ensureGroupResult`
the value `ensure_group` would resolve it to; when the stripped name is
truthy and the resolution is truthy, the group membership is forced into
the payload and `memberships` into the field mask. -/
def gc_update_contact (resource : String) (bodyMemberships : List MembershipEntry)
    (update_person_fields : List String) (etag : Option String)
    (groupNameSetting : Str) (ensureGroupResult : Option String) : GCRequest :=
  let payloadEtag := if pyTruthyS etag then etag else none
  let fields := normalize_update_fields update_person_fields
  let groupName := pyStrip groupNameSetting
  let withGroup :=
    if groupName ≠ [] ∧ pyTruthyS ensureGroupResult then
      let g := ensureGroupResult.getD ""
      (format_group_memberships bodyMemberships g, setInsert "memberships" fields)
    else (bodyMemberships, fields)
  { resource := resource
    payloadEtag := payloadEtag
    payloadMemberships := withGroup.1
    updateFields := withGroup.2 }

/-- `SyncEngine._update_contact`, etag gate and request issue (lines
404-413): a primary without a truthy etag raises
`RecoverableSyncError("missing_etag")` before any request; otherwise the
payload is sent through `google_client.update_contact` with that etag. -/
def engine_update_issue (primary : MatchCandidate)
    (bodyMemberships : List MembershipEntry) (updateFields : List String)
    (groupNameSetting : Str) (ensureGroupResult : Option String) :
    Except String GCRequest :=
  if ¬ pyTruthyS primary.person.etag then .error "missing_etag"
  else
    .ok (gc_update_contact primary.resource_name bodyMemberships updateFields
      primary.person.etag groupNameSetting ensureGroupResult)

/-- `merge.merge_contacts`, request view (lines 87-96): the update goes
out only with the primary's truthy etag. -/
def merge_update_issue (primary : MatchCandidate)
    (bodyMemberships : List MembershipEntry) (updateFields : List String)
    (groupNameSetting : Str) (ensureGroupResult : Option String) :
    Except String GCRequest :=
  if ¬ pyTruthyS primary.person.etag then .error "missing_etag_error"
  else
    .ok (gc_update_contact primary.resource_name bodyMemberships updateFields
      primary.person.etag groupNameSetting ensureGroupResult)

/-- `app/utils` `unique`: drop falsy items and duplicates, preserving
first-seen order.  `none` models a `None` item (a failed phone
normalisation). -/
def pyUniqueAux (seen : List Str) : List (Option Str) → List Str
  | [] => []
  | none :: rest => pyUniqueAux seen rest
  | some s :: rest =>
    if s = [] ∨ s ∈ seen then pyUniqueAux seen rest
    else s :: pyUniqueAux (s :: seen) rest

/-- `unique(seq)`. -/
def pyUnique (l : List (Option Str)) : List Str := pyUniqueAux [] l

/-- The request issued by `google_people.upsert_contact_by_external_id`:
either a PATCH `updateContact` on the matched resource or a POST
`createContact`, with the body fields the claims inspect. -/
structure UpsertIssued where
  action : String
  resource : Option String
  bodyEtag : Option String
  externalIdType : String
  externalIdValue : String
  includeName : Bool
  phones : List Str
  emails : List Str
deriving DecidableEq, Repr

/-- `google_people.upsert_contact_by_external_id` (lines 337-396).
`searchResult` is the person of the first search hit, if any.  The etag
is copied into the update body only when the matched person carries a
truthy one; no error is raised when it is absent. -/
def upsert_contact_by_external_id (amoContactId : Int) (searchResult : Option Person)
    (nameRaw : Option Str) (phones emails : List Str) : UpsertIssued :=
  let person := searchResult.getD {}
  let resource := person.resourceName
  let etag := person.etag
  let nameValue := nameRaw.getD []
  let includeName :=
    ¬ (pyTruthyS resource ∧ ¬ (nameValue ≠ [] ∧ pyStrip nameValue ≠ []))
  let nphones := pyUnique (phones.map normalize_phone)
  let nemails := pyUnique (emails.map (fun e => some (normalize_email e)))
  if pyTruthyS resource then
    { action := "update"
      resource := resource
      bodyEtag := if pyTruthyS etag then etag else none
      externalIdType := "AMOCRM"
      externalIdValue := intStr amoContactId
      includeName := includeName
      phones := nphones
      emails := nemails }
  else
    { action := "create"
      resource := none
      bodyEtag := none
      externalIdType := "AMOCRM"
      externalIdValue := intStr amoContactId
      includeName := includeName
      phones := nphones
      emails := nemails }

/-- Keyed insertion into the `candidate_map` dict (keyed by resource
name, insertion-ordered): an existing key is overwritten in place, a new
key is appended. -/
def pyDictInsert (m : List MatchCandidate) (c : MatchCandidate) : List MatchCandidate :=
  if m.any (fun d => d.resource_name = c.resource_name) then
    m.map (fun d => if d.resource_name = c.resource_name then c else d)
  else m ++ [c]

/-- `candidate_map` built from a candidate list by keyed insertion. -/
def candidateMapOf (l : List MatchCandidate) : List MatchCandidate :=
  l.foldl pyDictInsert []

/-- The `candidate_map` assembled at the start of
`SyncEngine._post_create_merge` (lines 446-464): the deduplicated search
results, with the newly created resource fetched and inserted when the
search missed it (`fetchedNew` is `none` when that fetch failed or
yielded no usable candidate). -/
def postCreateCandidates (resourceName : String)
    (searchResults : List MatchCandidate) (fetchedNew : Option MatchCandidate) :
    List MatchCandidate :=
  let cmap := candidateMapOf searchResults
  if cmap.any (fun c => c.resource_name = resourceName) then cmap
  else
    match fetchedNew with
    | some c => pyDictInsert cmap c
    | none => cmap

/-- `SyncEngine._post_create_merge` (lines 443-528) as an effect trace:
the resource name returned to `_create_contact` together with the
ordered directory and store effects it performs. -/
def post_create_merge (amoId : Option Int) (resourceName : String)
    (searchResults : List MatchCandidate) (fetchedNew : Option MatchCandidate) :
    String × List Op :=
  let cmap := postCreateCandidates resourceName searchResults fetchedNew
  if cmap.length ≤ 1 then (resourceName, [])
  else
    match cmap.find? (fun c => c.resource_name = resourceName) with
    | none => (resourceName, [])
    | some newCand =>
      let primary :=
        match amoId with
        | some i =>
          match cmap.find? (fun c =>
              c.resource_name ≠ resourceName ∧ c.person.hasExternalId (some i)) with
          | some existing => existing
          | none => newCand
        | none => newCand
      let duplicates := cmap.filter (fun c => c.resource_name ≠ primary.resource_name)
      if duplicates = [] then (primary.resource_name, [])
      else
        match merge_contacts primary duplicates with
        | .error _ => (primary.resource_name, [])
        | .ok (mergedPrimary, mops) =>
          let ops := mops ++
            (match amoId with
             | some i => [.saveLink (intStr i) mergedPrimary.resource_name]
             | none => []) ++
            [.remapLinks mergedPrimary.resource_name
              (duplicates.map MatchCandidate.resource_name)]
          (mergedPrimary.resource_name, ops)

/-- A `pending_sync` row (the columns the worker mutates). -/
structure PendingRecord where
  attempts : Nat
  nextAttemptAt : Int
  lastError : Option Str
deriving DecidableEq, Repr

/-- `PendingSyncWorker._retry_delay`: `min(1800, 30 * 2^(n-1))`. -/
def retry_delay (attempt : Nat) : Nat :=
  min 1800 (30 * 2 ^ (attempt - 1))

/-- `PendingSyncWorker._schedule_retry`. -/
def schedule_retry (now : Int) (r : PendingRecord) (delaySeconds : Int) (error : Str) :
    PendingRecord :=
  { attempts := r.attempts + 1
    nextAttemptAt := now + max 1 delaySeconds
    lastError := some error }

/-- `PendingSyncWorker._fail_permanently`: bump `attempts`, push
`next_attempt_at` 3650 days ahead, and store
`"reason:detail"` (or just the reason when the detail is falsy)
truncated to 255 characters. -/
def fail_permanently (now : Int) (r : PendingRecord) (reason : Str)
    (detail : Option Str) : PendingRecord :=
  let errorText :=
    match detail with
    | some d => if d ≠ [] then reason ++ ':' :: d else reason
    | none => reason
  { attempts := r.attempts + 1
    nextAttemptAt := now + 3650 * 86400
    lastError := some (errorText.take 255) }

/-- Python `needle in haystack` on strings. -/
def isSubstring (needle : Str) : Str → Bool
  | [] => needle.isPrefixOf []
  | c :: rest => needle.isPrefixOf (c :: rest) || isSubstring needle rest

/-- The exception raised by a `_handle_record` body, classified the way
its `except` clauses do. -/
inductive HandleError
  | rateLimit (retryAfter : Option Int)
  | runtimeError (message : Str)
  | otherError (className : Str)
deriving DecidableEq, Repr

/-- What happened to the pending row. -/
inductive RecordAction
  | rescheduled (r : PendingRecord)
  | deadLettered (r : PendingRecord)
  | raised
deriving DecidableEq, Repr

/-- Failure handling of `PendingSyncWorker._handle_record` (lines
112-145): rate limits reschedule with the larger of the server delay and
the exponential backoff; a `RuntimeError` whose message contains both
`AmoCRM` and `missing` is dead-lettered; any other `RuntimeError`
propagates; other exceptions reschedule with backoff. -/
def handle_record_failure (now : Int) (record : PendingRecord) (err : HandleError) :
    RecordAction :=
  match err with
  | .rateLimit retryAfter =>
    let delay := max (retryAfter.getD 0) (retry_delay (record.attempts + 1) : Int)
    .rescheduled (schedule_retry now record delay "google_rate_limit".data)
  | .runtimeError message =>
    if isSubstring "AmoCRM".data message && isSubstring "missing".data message then
      .deadLettered (fail_permanently now record "amo_auth_missing".data (some message))
    else .raised
  | .otherError className =>
    .rescheduled
      (schedule_retry now record (retry_delay (record.attempts + 1) : Int) className)

/-- The phone value a dedup pass keys on. -/
def phoneVal : PhoneEntry → Option Str
  | .valid v _ _ _ => v
  | .malformed => none

/-- The email value a dedup pass keys on. -/
def emailVal : EmailEntry → Option Str
  | .valid v _ _ => v
  | .malformed => none

/-- The group resource name a membership entry references. -/
def memName : MembershipEntry → Option String
  | .valid g => g
  | _ => none

/-- The biography text an entry carries. -/
def bioVal : BioEntry → Option String
  | .valid v => v
  | .malformed => none

/-- A phone entry already in the form `_deduplicate_phones` emits: a
dict whose value is a fixed point of `normalize_phone` and whose
optional fields are absent rather than falsy. -/
def canonicalPhoneEntry : PhoneEntry → Bool
  | .valid (some v) t m ft =>
    normalize_phone v = some v ∧ t ≠ some "" ∧ m ≠ some "" ∧ ft ≠ some ""
  | _ => false

/-- An email entry in the form `_deduplicate_emails` emits. -/
def canonicalEmailEntry : EmailEntry → Bool
  | .valid (some v) t m => v ≠ [] ∧ t ≠ some "" ∧ m ≠ some ""
  | _ => false

/-- A membership entry in the form `_merge_memberships` emits. -/
def canonicalMemEntry : MembershipEntry → Bool
  | .valid (some g) => g ≠ ""
  | _ => false

/-- A biography entry in the form `_merge_biographies` emits. -/
def canonicalBioEntry : BioEntry → Bool
  | .valid (some v) => v ≠ ""
  | _ => false

/-- A person record on which one pass of `union_fields` is the identity
(up to the ensure-group entry): all entries canonical and deduplicated,
and no fields outside the five that `union_fields` rebuilds. -/
def personCanonical (p : Person) : Prop :=
  p.resourceName = none ∧ p.etag = none ∧ p.externalIds = [] ∧ p.otherFields = [] ∧
  (∀ e ∈ p.phoneNumbers, canonicalPhoneEntry e) ∧
  (p.phoneNumbers.filterMap phoneVal).Nodup ∧
  (∀ e ∈ p.emailAddresses, canonicalEmailEntry e) ∧
  ((p.emailAddresses.filterMap emailVal).map normalize_email).Nodup ∧
  (∀ m ∈ p.memberships, canonicalMemEntry m) ∧
  (p.memberships.filterMap memName).Nodup ∧
  (∀ b ∈ p.biographies, canonicalBioEntry b) ∧
  (p.biographies.filterMap bioVal).Nodup

/-- The membership entry `union_fields` may append for the ensure-group
argument: present exactly when the group is truthy and not already
referenced. -/
def ensureGroupExtra (g : Option String) (existing : List String) :
    List MembershipEntry :=
  match g with
  | some gname =>
    if gname ≠ "" ∧ gname ∉ existing then [.valid (some gname)] else []
  | none => []

end AmoSync

namespace AmoSync

/-- The code's `normalize_phone` computes exactly the specification's
step list (the code's two early returns coincide with the spec's final
length check). -/
theorem normalize_phone_spec_agrees (r : Str) :
    normalize_phone r = normalise_phone_spec r := by
  unfold normalize_phone normalise_phone_spec
  by_cases hr : r = []
  · subst hr; simp
  · simp only [if_neg hr]
    by_cases hd : r.filter pyIsDigitNd = []
    · simp [hd]
    · simp [hd]

/-- The digit-preservation and length facts behind the shape property of
`normalize_phone`: every non-null result is a `+` followed by at least
10 Unicode decimal digits. -/
theorem normalise_phone_spec_shape (r : Str) :
    normalise_phone_spec r = none ∨
      ∃ ds, normalise_phone_spec r = some ('+' :: ds) ∧ 10 ≤ ds.length ∧
        ∀ c ∈ ds, pyIsDigitNd c := by
  unfold normalise_phone_spec
  have hall : ∀ c ∈ r.filter pyIsDigitNd, pyIsDigitNd c :=
    fun c hc => (List.mem_filter.mp hc).2
  generalize hg : r.filter pyIsDigitNd = d0 at hall
  set d1 := if d0.take 2 = ['0', '0'] then d0.drop 2 else d0 with hd1
  have hall1 : ∀ c ∈ d1, pyIsDigitNd c := by
    intro c hc
    rw [hd1] at hc
    split at hc
    · exact hall c (List.mem_of_mem_drop hc)
    · exact hall c hc
  set d2 := if d1.head? = some '8' ∧ d1.length = 11 then '7' :: d1.tail else d1 with hd2
  have hall2 : ∀ c ∈ d2, pyIsDigitNd c := by
    intro c hc
    rw [hd2] at hc
    split at hc
    · rcases List.mem_cons.mp hc with h | h
      · subst h; decide
      · exact hall1 c (List.mem_of_mem_tail h)
    · exact hall1 c hc
  by_cases hlen : d2.length < 10
  · left; simp [hlen]
  · right
    exact ⟨d2, by simp [hlen], by omega, hall2⟩

/-- C5 (counterexample): `re.sub(r"\D", "", ...)` keeps Unicode decimal
digits, so on ten Arabic-Indic digits (U+0660–U+0669) `normalize_phone`
returns a non-null result whose digits are not ASCII `[0-9]`, refuting
the claimed `^\+[0-9]{10,}$` totality. -/
theorem C5_counterexample :
    normalize_phone "٠١٢٣٤٥٦٧٨٩".data = some ('+' :: "٠١٢٣٤٥٦٧٨٩".data) ∧
    ∃ c ∈ "٠١٢٣٤٥٦٧٨٩".data, ¬ (48 ≤ c.toNat ∧ c.toNat ≤ 57) := by
  decide

/-- C5 (amended): `normalize_phone` strips every character outside
Unicode category Nd (Python's `\D` is Unicode-aware), drops a leading
`00`, rewrites a leading ASCII `8` of an 11-digit result to `7`,
rejects anything below 10 digits and prefixes `+`; consequently every
non-null result is a `+` followed by 10 or more Unicode decimal digits,
matching the Unicode reading of `^\+\d{10,}$` but not necessarily the
ASCII `^\+[0-9]{10,}$`. -/
theorem C5_normalize_phone (r : Str) :
    normalize_phone r = normalise_phone_spec r ∧
    (normalize_phone r = none ∨
      ∃ ds, normalize_phone r = some ('+' :: ds) ∧ 10 ≤ ds.length ∧
        ∀ c ∈ ds, pyIsDigitNd c) := by
  refine ⟨normalize_phone_spec_agrees r, ?_⟩
  rw [normalize_phone_spec_agrees r]
  exact normalise_phone_spec_shape r

/-- C5 witness: the amended statement at a concrete raw phone string. -/
theorem C5_normalize_phone_witness :
    normalize_phone "8 (999) 111-22-33".data
        = normalise_phone_spec "8 (999) 111-22-33".data ∧
    (normalize_phone "8 (999) 111-22-33".data = none ∨
      ∃ ds, normalize_phone "8 (999) 111-22-33".data = some ('+' :: ds) ∧
        10 ≤ ds.length ∧ ∀ c ∈ ds, pyIsDigitNd c) :=
  C5_normalize_phone "8 (999) 111-22-33".data

theorem char_toNat_ofNat (n : Nat) (h : n < 55296) : (Char.ofNat n).toNat = n := by
  rw [Char.ofNat, dif_pos (Or.inl h)]
  rfl

theorem pyLowerChar_toNat (c : Char) :
    (65 ≤ c.toNat ∧ c.toNat ≤ 90 ∧ (pyLowerChar c).toNat = c.toNat + 32) ∨
      (¬ (65 ≤ c.toNat ∧ c.toNat ≤ 90) ∧ pyLowerChar c = c) := by
  unfold pyLowerChar
  by_cases h : 65 ≤ c.toNat ∧ c.toNat ≤ 90
  · left
    refine ⟨h.1, h.2, ?_⟩
    rw [if_pos h, char_toNat_ofNat _ (by omega)]
  · right
    exact ⟨h, if_neg h⟩

/-- `pyLowerChar` never yields an uppercase ASCII letter. -/
theorem pyLowerChar_not_upper (c : Char) :
    ¬ (65 ≤ (pyLowerChar c).toNat ∧ (pyLowerChar c).toNat ≤ 90) := by
  rcases pyLowerChar_toNat c with ⟨_, h2, h3⟩ | ⟨h1, h2⟩
  · omega
  · rw [h2]; exact h1

theorem pyIsSpace_false_of_65le (c : Char) (h : 65 ≤ c.toNat) :
    pyIsSpace c = false := by
  unfold pyIsSpace
  simp only [Bool.or_eq_false_iff, decide_eq_false_iff_not]
  omega

/-- Lowercasing does not affect whitespace-ness. -/
theorem pyIsSpace_pyLowerChar (c : Char) :
    pyIsSpace (pyLowerChar c) = pyIsSpace c := by
  rcases pyLowerChar_toNat c with ⟨h1, h2, h3⟩ | ⟨_, h2⟩
  · rw [pyIsSpace_false_of_65le c h1, pyIsSpace_false_of_65le (pyLowerChar c) (by omega)]
  · rw [h2]

theorem head?_dropWhile_false {p : α → Bool} {l : List α} {c : α}
    (h : (l.dropWhile p).head? = some c) : p c = false := by
  induction l with
  | nil => simp at h
  | cons a l ih =>
    by_cases hp : p a
    · rw [List.dropWhile_cons_of_pos hp] at h
      exact ih h
    · rw [List.dropWhile_cons_of_neg hp] at h
      simp at h
      subst h
      simpa using hp

/-- The first character of a stripped string is not whitespace. -/
theorem pyStrip_head {s : Str} {c : Char} (h : (pyStrip s).head? = some c) :
    pyIsSpace c = false := by
  unfold pyStrip at h
  rw [List.head?_reverse] at h
  obtain ⟨w, hw⟩ :=
    List.dropWhile_suffix (l := (s.dropWhile pyIsSpace).reverse) pyIsSpace
  have h2 : ((s.dropWhile pyIsSpace).reverse).getLast? = some c := by
    rw [← hw, List.getLast?_append, h]
    rfl
  rw [List.getLast?_reverse] at h2
  exact head?_dropWhile_false h2

/-- The last character of a stripped string is not whitespace. -/
theorem pyStrip_getLast {s : Str} {c : Char} (h : (pyStrip s).getLast? = some c) :
    pyIsSpace c = false := by
  unfold pyStrip at h
  rw [List.getLast?_reverse] at h
  exact head?_dropWhile_false h

/-- Normalised emails are trimmed at both ends and contain no uppercase
ASCII letters. -/
theorem normalize_email_props (e : Str) :
    (∀ c, (normalize_email e).head? = some c → pyIsSpace c = false) ∧
    (∀ c, (normalize_email e).getLast? = some c → pyIsSpace c = false) ∧
    (∀ c ∈ normalize_email e, ¬ (65 ≤ c.toNat ∧ c.toNat ≤ 90)) := by
  refine ⟨?_, ?_, ?_⟩
  · intro c hc
    unfold normalize_email pyLower at hc
    rw [List.head?_map] at hc
    rcases ho : (pyStrip e).head? with _ | d
    · rw [ho] at hc; simp at hc
    · rw [ho] at hc
      simp at hc
      rw [← hc, pyIsSpace_pyLowerChar]
      exact pyStrip_head ho
  · intro c hc
    unfold normalize_email pyLower at hc
    rw [List.getLast?_map] at hc
    rcases ho : (pyStrip e).getLast? with _ | d
    · rw [ho] at hc; simp at hc
    · rw [ho] at hc
      simp at hc
      rw [← hc, pyIsSpace_pyLowerChar]
      exact pyStrip_getLast ho
  · intro c hc
    unfold normalize_email pyLower at hc
    rcases List.mem_map.mp hc with ⟨d, _, hd⟩
    rw [← hd]
    exact pyLowerChar_not_upper d

/-- C6 (counterexample): `MatchKeys.from_raw` performs no validity check
on emails, so a raw email without an `@` lands in the key set with zero
`@` characters, refuting the exactly-one-`@` clause. -/
theorem C6_counterexample :
    ∃ m ∈ (MatchKeys.from_raw [] [['a', 'b', 'c']]).emails, m.count '@' ≠ 1 := by
  decide

/-- C6 (amended): every member of the emails set of a `MatchKeys` built
from raw values is trimmed (no leading or trailing whitespace) and
lowercased (no uppercase ASCII); it need not contain exactly one `@`. -/
theorem C6_matchkeys_emails_trimmed_lowercased (phones emails : List Str) :
    ∀ m ∈ (MatchKeys.from_raw phones emails).emails,
      (∀ c, m.head? = some c → pyIsSpace c = false) ∧
      (∀ c, m.getLast? = some c → pyIsSpace c = false) ∧
      (∀ c ∈ m, ¬ (65 ≤ c.toNat ∧ c.toNat ≤ 90)) := by
  intro m hm
  unfold MatchKeys.from_raw pyDedup at hm
  simp only [List.mem_dedup] at hm
  rcases List.mem_map.mp hm with ⟨e, _, he⟩
  rw [← he]
  exact normalize_email_props e

/-- C6 witness: the amended statement at a concrete raw email. -/
theorem C6_matchkeys_emails_witness :
    (∀ c, ("user@mail.com".data).head? = some c → pyIsSpace c = false) ∧
    (∀ c, ("user@mail.com".data).getLast? = some c → pyIsSpace c = false) ∧
    (∀ c ∈ "user@mail.com".data, ¬ (65 ≤ c.toNat ∧ c.toNat ≤ 90)) :=
  C6_matchkeys_emails_trimmed_lowercased [] [" USER@Mail.COM ".data]
    "user@mail.com".data (by decide)

theorem foldl_max_spec (f : α → Int) (x : α) (xs : List α) :
    (xs.foldl (fun best y => if f y > f best then y else best) x) ∈ x :: xs ∧
      f x ≤ f (xs.foldl (fun best y => if f y > f best then y else best) x) ∧
      ∀ y ∈ xs,
        f y ≤ f (xs.foldl (fun best y => if f y > f best then y else best) x) := by
  induction xs generalizing x with
  | nil => simp
  | cons a xs ih =>
    simp only [List.foldl_cons]
    rcases ih (if f a > f x then a else x) with ⟨hmem, hseed, hmax⟩
    have hfx : f x ≤ f (if f a > f x then a else x) := by
      by_cases hc : f a > f x
      · rw [if_pos hc]; omega
      · rw [if_neg hc]
    have hfa : f a ≤ f (if f a > f x then a else x) := by
      by_cases hc : f a > f x
      · rw [if_pos hc]
      · rw [if_neg hc]; omega
    refine ⟨?_, by omega, ?_⟩
    · rcases List.mem_cons.mp hmem with h | h
      · rw [h]
        by_cases hc : f a > f x
        · rw [if_pos hc]
          exact List.mem_cons_of_mem _ (List.mem_cons_self _ _)
        · rw [if_neg hc]
          exact List.mem_cons_self _ _
      · exact List.mem_cons_of_mem _ (List.mem_cons_of_mem _ h)
    · intro y hy
      rcases List.mem_cons.mp hy with h | h
      · subst h; omega
      · exact hmax y h

/-- `pyMaxBy` on a non-empty list returns a member maximising the key
(the first such member, as Python's `max`). -/
theorem pyMaxBy_spec (f : α → Int) (l : List α) (h : l ≠ []) :
    ∃ m, pyMaxBy f l = some m ∧ m ∈ l ∧ ∀ y ∈ l, f y ≤ f m := by
  cases l with
  | nil => exact absurd rfl h
  | cons x xs =>
    rcases foldl_max_spec f x xs with ⟨hmem, hseed, hmax⟩
    refine ⟨_, rfl, hmem, ?_⟩
    intro y hy
    rcases List.mem_cons.mp hy with h | h
    · subst h; exact hseed
    · exact hmax y h

/-- `choose_primary` computes the recency maximum of the successive
filter chain. -/
theorem choose_primary_eq_chain (cs : List MatchCandidate) (keys : MatchKeys)
    (ctx : MatchContext) (h : cs ≠ []) :
    choose_primary cs keys ctx =
      pyMaxBy scoreOf (choose_primary_filter_chain cs keys ctx) := by
  unfold choose_primary choose_primary_filter_chain chainStep4 chainStep3 chainStep2 chainStep1
  rw [if_neg h]

theorem keepNonempty_ne_nil [DecidableEq α] {f b : List α} (hb : b ≠ []) :
    keepNonempty f b ≠ [] := by
  unfold keepNonempty
  split_ifs with hf
  · exact hf
  · exact hb

theorem keepNonempty_subset [DecidableEq α] {p : α → Bool} {b : List α} :
    ∀ d ∈ keepNonempty (b.filter p) b, d ∈ b := by
  intro d hd
  unfold keepNonempty at hd
  split_ifs at hd
  · exact (List.mem_filter.mp hd).1
  · exact hd

theorem chainStep1_ne_nil {keys : MatchKeys} {l : List MatchCandidate} (h : l ≠ []) :
    chainStep1 keys l ≠ [] := keepNonempty_ne_nil h

theorem chainStep2_ne_nil {ctx : MatchContext} {l : List MatchCandidate} (h : l ≠ []) :
    chainStep2 ctx l ≠ [] := keepNonempty_ne_nil h

theorem chainStep3_ne_nil {ctx : MatchContext} {l : List MatchCandidate} (h : l ≠ []) :
    chainStep3 ctx l ≠ [] := by
  unfold chainStep3
  split_ifs with hc
  · exact hc.2
  · exact h

theorem chainStep4_ne_nil {ctx : MatchContext} {l : List MatchCandidate} (h : l ≠ []) :
    chainStep4 ctx l ≠ [] := by
  unfold chainStep4
  split_ifs with hc
  · exact keepNonempty_ne_nil h
  · exact h

theorem chainStep1_subset {keys : MatchKeys} {l : List MatchCandidate} :
    ∀ d ∈ chainStep1 keys l, d ∈ l := fun d hd => keepNonempty_subset d hd

theorem chainStep2_subset {ctx : MatchContext} {l : List MatchCandidate} :
    ∀ d ∈ chainStep2 ctx l, d ∈ l := fun d hd => keepNonempty_subset d hd

theorem chainStep3_subset {ctx : MatchContext} {l : List MatchCandidate} :
    ∀ d ∈ chainStep3 ctx l, d ∈ l := by
  intro d hd
  unfold chainStep3 at hd
  split_ifs at hd
  · exact (List.mem_filter.mp hd).1
  · exact hd

theorem chainStep4_subset {ctx : MatchContext} {l : List MatchCandidate} :
    ∀ d ∈ chainStep4 ctx l, d ∈ l := by
  intro d hd
  unfold chainStep4 at hd
  split_ifs at hd
  · exact keepNonempty_subset d hd
  · exact hd

theorem chain_ne_nil (cs : List MatchCandidate) (keys : MatchKeys)
    (ctx : MatchContext) (h : cs ≠ []) :
    choose_primary_filter_chain cs keys ctx ≠ [] :=
  chainStep4_ne_nil (chainStep3_ne_nil (chainStep2_ne_nil (chainStep1_ne_nil h)))

theorem chain_subset (cs : List MatchCandidate) (keys : MatchKeys)
    (ctx : MatchContext) :
    ∀ d ∈ choose_primary_filter_chain cs keys ctx, d ∈ cs :=
  fun d hd =>
    chainStep1_subset d (chainStep2_subset d (chainStep3_subset d (chainStep4_subset d hd)))

/-- C3: on every non-empty candidate list `choose_primary` returns a
candidate (never null); the returned candidate survives the successive
filters — exact phone, external id, group (when configured), mapped
resource, each kept only when non-empty — and maximises the recency
score among the survivors, where a missing `update_time` scores as the
Unix epoch and a naive one as its UTC reading. -/
theorem C3_choose_primary (cs : List MatchCandidate) (keys : MatchKeys)
    (ctx : MatchContext) (h : cs ≠ []) :
    ∃ c, choose_primary cs keys ctx = some c ∧
      c ∈ choose_primary_filter_chain cs keys ctx ∧
      (∀ d ∈ choose_primary_filter_chain cs keys ctx, scoreOf d ≤ scoreOf c) ∧
      c ∈ cs := by
  rcases pyMaxBy_spec scoreOf (choose_primary_filter_chain cs keys ctx)
      (chain_ne_nil cs keys ctx h) with ⟨m, hm, hmem, hmax⟩
  exact ⟨m, (choose_primary_eq_chain cs keys ctx h).trans hm, hmem, hmax,
    chain_subset cs keys ctx m hmem⟩

/-- C3 witness: the statement at a concrete one-candidate list. -/
theorem C3_choose_primary_witness :
    ∃ c, choose_primary [⟨"people/1", {}, [], [], none⟩] ⟨[], []⟩ {} = some c ∧
      c ∈ choose_primary_filter_chain [⟨"people/1", {}, [], [], none⟩] ⟨[], []⟩ {} ∧
      (∀ d ∈ choose_primary_filter_chain [⟨"people/1", {}, [], [], none⟩] ⟨[], []⟩ {},
        scoreOf d ≤ scoreOf c) ∧
      c ∈ [(⟨"people/1", {}, [], [], none⟩ : MatchCandidate)] :=
  C3_choose_primary [⟨"people/1", {}, [], [], none⟩] ⟨[], []⟩ {} (by decide)

/-- C4 (counterexample): in the no-primary-with-candidates branch the
plan carries `action=create` and `reason=no_primary`, but
`preflight_blocked_create` is `false`, because the flag is
`bool(candidates) and action != "create"`. -/
theorem C4_counterexample :
    (plan_decision [⟨"people/1", {}, [], [], none⟩] none true).action = "create" ∧
    (plan_decision [⟨"people/1", {}, [], [], none⟩] none true).reason = "no_primary" ∧
    (plan_decision [⟨"people/1", {}, [], [], none⟩] none true).preflight_blocked_create
      = false := by
  refine ⟨rfl, rfl, rfl⟩

/-- C4 (amended): whenever `plan` sees a non-empty candidate list but no
primary, the decision is `action=create`, `reason=no_primary`, and
`preflight_blocked_create=false` (the flag is set only when candidates
exist and the action is not create). -/
theorem C4_plan_no_primary (cs : List MatchCandidate) (autoMerge : Bool)
    (h : cs ≠ []) :
    plan_decision cs none autoMerge =
      { action := "create", reason := "no_primary", preflight_blocked_create := false } := by
  unfold plan_decision
  simp [h]

/-- C4 witness: the amended statement at a concrete candidate list. -/
theorem C4_plan_no_primary_witness :
    plan_decision [⟨"people/1", {}, [], [], none⟩] none true =
      { action := "create", reason := "no_primary", preflight_blocked_create := false } :=
  C4_plan_no_primary [⟨"people/1", {}, [], [], none⟩] true (by decide)

/-- C2 (counterexample): when every attempt raises a recoverable error,
`SyncEngine.apply` invokes `_apply_once` four times — one initial
attempt plus three retries — before the error propagates, so the loop is
not bounded by 3 attempts. -/
theorem C2_counterexample :
    apply_model (fun _ => .recoverable "update_failed:404") =
      (4, .error "update_failed:404") := rfl

theorem applyRetries_ok_eq {o : Nat → AttemptOutcome} {idx : Nat} {a : String}
    {r : Option String} (n : Nat) (h : o idx = .ok a r) :
    applyRetries o idx n = (idx + 1, .ok (a, r)) := by
  cases n <;> (unfold applyRetries; rw [h])

theorem applyRetries_rec_zero {o : Nat → AttemptOutcome} {idx : Nat} {reason : String}
    (h : o idx = .recoverable reason) :
    applyRetries o idx 0 = (idx + 1, .error reason) := by
  unfold applyRetries
  rw [h]

theorem applyRetries_rec_succ {o : Nat → AttemptOutcome} {idx : Nat} {reason : String}
    (n : Nat) (h : o idx = .recoverable reason) :
    applyRetries o idx (n + 1) = applyRetries o (idx + 1) n := by
  conv_lhs => unfold applyRetries
  rw [h]

theorem applyRetries_fst_le (o : Nat → AttemptOutcome) (n idx : Nat) :
    (applyRetries o idx n).1 ≤ idx + n + 1 := by
  induction n generalizing idx with
  | zero =>
    rcases ho : o idx with a | r
    · rw [applyRetries_ok_eq 0 ho]
    · rw [applyRetries_rec_zero ho]
  | succ n ih =>
    rcases ho : o idx with a | r
    · rw [applyRetries_ok_eq (n + 1) ho]; omega
    · rw [applyRetries_rec_succ n ho]
      have := ih (idx + 1)
      omega

theorem applyRetries_ok_at (o : Nat → AttemptOutcome) :
    ∀ (k n idx : Nat), k ≤ n →
      (∀ j < k, ∃ reason, o (idx + j) = .recoverable reason) →
      ∀ a r, o (idx + k) = .ok a r →
        applyRetries o idx n = (idx + k + 1, .ok (a, r)) := by
  intro k
  induction k with
  | zero =>
    intro n idx _ _ a r hk
    rw [Nat.add_zero] at hk
    rw [applyRetries_ok_eq n hk, Nat.add_zero]
  | succ k ih =>
    intro n idx hkn hrec a r hk
    obtain ⟨reason, hr0⟩ := hrec 0 (Nat.succ_pos k)
    rw [Nat.add_zero] at hr0
    obtain ⟨m, rfl⟩ : ∃ m, n = m + 1 := ⟨n - 1, by omega⟩
    rw [applyRetries_rec_succ m hr0]
    have hrec' : ∀ j < k, ∃ reason, o (idx + 1 + j) = .recoverable reason := by
      intro j hj
      have := hrec (j + 1) (by omega)
      rwa [show idx + (j + 1) = idx + 1 + j by omega] at this
    have hk' : o (idx + 1 + k) = .ok a r := by
      rwa [show idx + (k + 1) = idx + 1 + k by omega] at hk
    rw [ih m (idx + 1) (by omega) hrec' a r hk']
    refine congrArg (fun z => (z, _)) ?_
    omega

theorem applyRetries_all_recoverable (o : Nat → AttemptOutcome) :
    ∀ (n idx : Nat),
      (∀ j ≤ n, ∃ reason, o (idx + j) = .recoverable reason) →
      ∃ reason, o (idx + n) = .recoverable reason ∧
        applyRetries o idx n = (idx + n + 1, .error reason) := by
  intro n
  induction n with
  | zero =>
    intro idx hrec
    obtain ⟨reason, hr⟩ := hrec 0 (Nat.le_refl 0)
    rw [Nat.add_zero] at hr
    exact ⟨reason, by rwa [Nat.add_zero], by rw [applyRetries_rec_zero hr, Nat.add_zero]⟩
  | succ n ih =>
    intro idx hrec
    obtain ⟨reason0, hr0⟩ := hrec 0 (Nat.zero_le _)
    rw [Nat.add_zero] at hr0
    have hrec' : ∀ j ≤ n, ∃ reason, o (idx + 1 + j) = .recoverable reason := by
      intro j hj
      have := hrec (j + 1) (by omega)
      rwa [show idx + (j + 1) = idx + 1 + j by omega] at this
    obtain ⟨reason, hlast, heq⟩ := ih (idx + 1) hrec'
    refine ⟨reason, by rwa [show idx + (n + 1) = idx + 1 + n by omega], ?_⟩
    rw [applyRetries_rec_succ n hr0, heq]
    refine congrArg (fun z => (z, _)) ?_
    omega

/-- C2 (amended): `SyncEngine.apply` runs `_apply_once` at most 4 times
(the initial attempt plus at most 3 retries, each retry re-planning from
the same contact): a success on any of the first four attempts, all
earlier ones recoverable, is returned after exactly that many
invocations, and when the first four attempts all raise recoverable
errors, the fourth error propagates after exactly 4 invocations. -/
theorem C2_apply_retry_loop (o : Nat → AttemptOutcome) :
    (apply_model o).1 ≤ 4 ∧
    (∀ k, k < 4 → (∀ j < k, ∃ reason, o j = .recoverable reason) →
      ∀ a r, o k = .ok a r → apply_model o = (k + 1, .ok (a, r))) ∧
    ((∀ j < 4, ∃ reason, o j = .recoverable reason) →
      ∃ reason, o 3 = .recoverable reason ∧ apply_model o = (4, .error reason)) := by
  refine ⟨?_, ?_, ?_⟩
  · have := applyRetries_fst_le o 3 0
    simpa [apply_model] using this
  · intro k hk hrec a r hok
    have := applyRetries_ok_at o k 3 0 (by omega)
      (by intro j hj; simpa using hrec j hj) a r (by simpa using hok)
    simpa [apply_model] using this
  · intro hrec
    have := applyRetries_all_recoverable o 3 0
      (by intro j hj; simpa using hrec j (by omega))
    simpa [apply_model] using this

/-- C2 witness: a first recoverable attempt followed by a successful
retry returns after exactly two invocations. -/
theorem C2_apply_retry_loop_witness :
    apply_model
        (fun i => if i = 0 then .recoverable "missing_etag"
          else .ok "updated" (some "people/1")) =
      (2, .ok ("updated", some "people/1")) :=
  (C2_apply_retry_loop _).2.1 1 (by omega)
    (fun j hj => by
      have : j = 0 := by omega
      subst this
      exact ⟨"missing_etag", rfl⟩)
    "updated" (some "people/1") rfl

theorem isSubstring_nil_ne {needle : Str} (hne : needle ≠ [])
    (h : isSubstring needle [] = true) : False := by
  unfold isSubstring at h
  rcases needle with _ | ⟨c, rest⟩
  · exact hne rfl
  · simp [List.isPrefixOf] at h

/-- C9: a RuntimeError whose message mentions both `AmoCRM` and
`missing` dead-letters the pending row instead of deleting it: attempts
is incremented, `next_attempt_at` moves 3650 days (in seconds) ahead,
and `last_error` is `amo_auth_missing:<detail>` truncated to 255
characters, which always begins with `amo_auth_missing`. -/
theorem C9_auth_missing_dead_letter (now : Int) (r : PendingRecord) (msg : Str)
    (h1 : isSubstring "AmoCRM".data msg = true)
    (h2 : isSubstring "missing".data msg = true) :
    ∃ r', handle_record_failure now r (.runtimeError msg) = .deadLettered r' ∧
      r'.attempts = r.attempts + 1 ∧
      r'.nextAttemptAt = now + 3650 * 86400 ∧
      r'.lastError = some (("amo_auth_missing".data ++ ':' :: msg).take 255) ∧
      ∃ rest, r'.lastError = some ("amo_auth_missing".data ++ rest) := by
  have hmsg : msg ≠ [] := by
    intro he
    subst he
    exact isSubstring_nil_ne (by decide) h1
  refine ⟨fail_permanently now r "amo_auth_missing".data (some msg), ?_, rfl, rfl, ?_, ?_⟩
  · simp [handle_record_failure, h1, h2]
  · unfold fail_permanently
    simp [hmsg]
  · unfold fail_permanently
    simp only [hmsg, if_pos, ne_eq, not_false_iff, if_true]
    refine ⟨(':' :: msg).take 239, ?_⟩
    rw [List.take_append_eq_append_take,
      List.take_of_length_le (l := "amo_auth_missing".data) (by decide)]
    rfl

/-- C9 witness: the statement at the concrete error raised when the
long-lived token is absent. -/
theorem C9_auth_missing_dead_letter_witness :
    ∃ r', handle_record_failure 0 ⟨0, 0, none⟩
        (.runtimeError "AmoCRM LLT missing".data) = .deadLettered r' ∧
      r'.attempts = 0 + 1 ∧
      r'.nextAttemptAt = 0 + 3650 * 86400 ∧
      r'.lastError =
        some (("amo_auth_missing".data ++ ':' :: "AmoCRM LLT missing".data).take 255) ∧
      ∃ rest, r'.lastError = some ("amo_auth_missing".data ++ rest) :=
  C9_auth_missing_dead_letter 0 ⟨0, 0, none⟩ "AmoCRM LLT missing".data
    (by decide) (by decide)

theorem fgmAux_found {g : String} : ∀ {ex : List MembershipEntry},
    (fgmAux g ex).2 = true →
      MembershipEntry.valid (some g) ∈ (fgmAux g ex).1 := by
  intro ex
  induction ex with
  | nil => intro h; simp [fgmAux] at h
  | cons e rest ih =>
    intro h
    cases e with
    | notDict =>
      simp only [fgmAux] at h ⊢
      exact ih h
    | oddDict =>
      rcases hrec : fgmAux g rest with ⟨l, f⟩
      simp only [fgmAux, hrec] at h ⊢
      refine List.mem_cons_of_mem _ ?_
      have := ih
      rw [hrec] at this
      exact this h
    | valid gv =>
      rcases hrec : fgmAux g rest with ⟨l, f⟩
      simp only [fgmAux, hrec] at h ⊢
      rcases Bool.or_eq_true_iff.mp h with hf | hgv
      · refine List.mem_cons_of_mem _ ?_
        have := ih
        rw [hrec] at this
        exact this hf
      · rw [show gv = some g from by simpa using hgv]
        exact List.mem_cons_self _ _

/-- `_format_group_memberships` always yields a membership referencing
the target group: an existing one is kept, otherwise one is appended. -/
theorem format_group_memberships_mem (ex : List MembershipEntry) (g : String) :
    MembershipEntry.valid (some g) ∈ format_group_memberships ex g := by
  unfold format_group_memberships
  rcases hrec : fgmAux g ex with ⟨l, f⟩
  cases f with
  | true =>
    simp only
    have := @fgmAux_found g ex
    rw [hrec] at this
    simpa using this rfl
  | false =>
    simp only
    simp

theorem setInsert_mem (x : String) (s : List String) : x ∈ setInsert x s := by
  unfold setInsert
  split_ifs with h
  · exact h
  · simp

/-- C10: whenever a directory group name is configured (non-empty after
stripping) and `ensure_group` resolves it to a non-empty group resource,
the body sent by `google_client.update_contact` contains a membership
for that group and `memberships` is in the update mask, regardless of
the caller's payload and field list. -/
theorem C10_update_contact_forces_group (resource : String)
    (bodyMemberships : List MembershipEntry) (fields : List String)
    (etag : Option String) (groupSetting : Str) (g : String)
    (hname : pyStrip groupSetting ≠ []) (hg : g ≠ "") :
    MembershipEntry.valid (some g) ∈
      (gc_update_contact resource bodyMemberships fields etag groupSetting
        (some g)).payloadMemberships ∧
    "memberships" ∈
      (gc_update_contact resource bodyMemberships fields etag groupSetting
        (some g)).updateFields := by
  unfold gc_update_contact
  simp only
  split_ifs with hc
  · exact ⟨format_group_memberships_mem _ _, setInsert_mem _ _⟩
  · exact absurd ⟨hname, by simp [pyTruthyS, hg]⟩ hc

/-- C10 witness: a concrete update whose payload and field list do not
mention memberships still carries the group membership and mask entry. -/
theorem C10_update_contact_forces_group_witness :
    MembershipEntry.valid (some "contactGroups/g1") ∈
      (gc_update_contact "people/1" [] ["names"] none "Team".data
        (some "contactGroups/g1")).payloadMemberships ∧
    "memberships" ∈
      (gc_update_contact "people/1" [] ["names"] none "Team".data
        (some "contactGroups/g1")).updateFields :=
  C10_update_contact_forces_group "people/1" [] ["names"] none "Team".data
    "contactGroups/g1" (by decide) (by decide)

theorem pyTruthyS_iff {o : Option String} :
    pyTruthyS o = true ↔ ∃ s, o = some s ∧ s ≠ "" := by
  cases o with
  | none => simp [pyTruthyS]
  | some s => simp [pyTruthyS]

/-- C8 (counterexample): `upsert_contact_by_external_id` issues an
`updateContact` request with no etag in the body, without raising, when
the person found by the external-id search carries no etag. -/
theorem C8_counterexample :
    (upsert_contact_by_external_id 7 (some { resourceName := some "people/1" })
        (some "Alice".data) [] []).action = "update" ∧
    (upsert_contact_by_external_id 7 (some { resourceName := some "people/1" })
        (some "Alice".data) [] []).bodyEtag = none :=
  ⟨rfl, rfl⟩

/-- C8 (amended): the reconciliation-pipeline update paths are
etag-safe — `SyncEngine._update_contact` and `merge_contacts` either
send the primary's non-empty etag or raise before issuing the request —
but `upsert_contact_by_external_id` (the legacy batch-apply path) can
issue an update without one. -/
theorem C8_pipeline_etag_guard (primary : MatchCandidate)
    (others : List MatchCandidate) (bodyM : List MembershipEntry)
    (fields : List String) (gs : Str) (er : Option String) :
    (∀ req, engine_update_issue primary bodyM fields gs er = .ok req →
      ∃ e, req.payloadEtag = some e ∧ e ≠ "") ∧
    (∀ req, merge_update_issue primary bodyM fields gs er = .ok req →
      ∃ e, req.payloadEtag = some e ∧ e ≠ "") ∧
    (∀ res ops r e, merge_contacts primary others = .ok (res, ops) →
      Op.updateContact r e ∈ ops → e ≠ "") := by
  refine ⟨?_, ?_, ?_⟩
  · intro req hreq
    cases htr : pyTruthyS primary.person.etag with
    | false =>
      unfold engine_update_issue at hreq
      simp [htr] at hreq
    | true =>
      unfold engine_update_issue at hreq
      simp only [htr] at hreq
      rw [if_neg (by simp)] at hreq
      rcases pyTruthyS_iff.mp htr with ⟨e, he, hne⟩
      refine ⟨e, ?_, hne⟩
      rw [← show gc_update_contact primary.resource_name bodyM fields
          primary.person.etag gs er = req by
        exact Except.ok.inj hreq]
      unfold gc_update_contact
      simp [he, pyTruthyS, hne]
  · intro req hreq
    cases htr : pyTruthyS primary.person.etag with
    | false =>
      unfold merge_update_issue at hreq
      simp [htr] at hreq
    | true =>
      unfold merge_update_issue at hreq
      simp only [htr] at hreq
      rw [if_neg (by simp)] at hreq
      rcases pyTruthyS_iff.mp htr with ⟨e, he, hne⟩
      refine ⟨e, ?_, hne⟩
      rw [← show gc_update_contact primary.resource_name bodyM fields
          primary.person.etag gs er = req by
        exact Except.ok.inj hreq]
      unfold gc_update_contact
      simp [he, pyTruthyS, hne]
  · intro res ops r e hok hmem
    unfold merge_contacts at hok
    by_cases hdup :
        others.filter (fun c => c.resource_name ≠ primary.resource_name) = []
    · rw [if_pos hdup] at hok
      obtain ⟨rfl, rfl⟩ : primary = res ∧ [] = ops := by
        simpa using hok
      simp at hmem
    · rw [if_neg hdup] at hok
      cases htr : pyTruthyS primary.person.etag with
      | false => simp [htr] at hok
      | true =>
        simp only [htr] at hok
        rw [if_neg (by simp)] at hok
        rcases pyTruthyS_iff.mp htr with ⟨e0, he0, hne0⟩
        obtain ⟨rfl, rfl⟩ : primary = res ∧ _ = ops := by
          simpa [Prod.ext_iff] using hok
        simp only [List.mem_cons, List.not_mem_nil, or_false] at hmem
        rcases hmem with h1 | h1 | h1 <;> cases h1
        simp [he0, hne0]

/-- C8 witness: the guard at a primary that carries an etag. -/
theorem C8_pipeline_etag_guard_witness :
    ∃ e, (gc_update_contact "people/1" [] [] (some "E1") [] none).payloadEtag
        = some e ∧ e ≠ "" :=
  (C8_pipeline_etag_guard ⟨"people/1", { etag := some "E1" }, [], [], none⟩
      [] [] [] [] none).1
    (gc_update_contact "people/1" [] [] (some "E1") [] none) rfl

theorem normalize_phone_some_ne_nil {x y : Str} (h : normalize_phone x = some y) :
    y ≠ [] := by
  rcases normalise_phone_spec_shape x with hn | ⟨ds, hds, _, _⟩
  · rw [normalize_phone_spec_agrees] at h
    rw [h] at hn
    exact absurd hn (by simp)
  · rw [normalize_phone_spec_agrees] at h
    rw [h] at hds
    simp only [Option.some.injEq] at hds
    rw [hds]
    simp

theorem opt_keep_truthy {o : Option String} (h : o ≠ some "") :
    (if pyTruthyS o then o else none) = o := by
  cases o with
  | none => simp [pyTruthyS]
  | some s =>
    have : s ≠ "" := fun he => h (by rw [he])
    simp [pyTruthyS, this]

theorem dedupPhonesAux_cons_valid {seen : List Str} {v : Str}
    {t m ft : Option String} {rest : List PhoneEntry} (hv : v ≠ [])
    (hnorm : normalize_phone v = some v) (hnot : v ∉ seen) :
    dedupPhonesAux seen (.valid (some v) t m ft :: rest) =
      rebuildPhone v t m ft :: dedupPhonesAux (v :: seen) rest := by
  show (if v = [] then dedupPhonesAux seen rest
    else
      match normalize_phone v with
      | none => dedupPhonesAux seen rest
      | some n =>
        if n ∈ seen then dedupPhonesAux seen rest
        else rebuildPhone n t m ft :: dedupPhonesAux (n :: seen) rest) = _
  rw [if_neg hv, hnorm]
  exact if_neg hnot

theorem dedupEmailsAux_cons_valid {seen : List Str} {v : Str}
    {t m : Option String} {rest : List EmailEntry} (hv : v ≠ [])
    (hnot : normalize_email v ∉ seen) :
    dedupEmailsAux seen (.valid (some v) t m :: rest) =
      rebuildEmail v t m :: dedupEmailsAux (normalize_email v :: seen) rest := by
  show (if v = [] then dedupEmailsAux seen rest
    else
      if normalize_email v ∈ seen then dedupEmailsAux seen rest
      else rebuildEmail v t m :: dedupEmailsAux (normalize_email v :: seen) rest) = _
  rw [if_neg hv]
  exact if_neg hnot

theorem mergeMembershipsAux_cons_valid {seen : List String} {gname : String}
    {rest : List MembershipEntry} (hg : gname ≠ "") (hnot : gname ∉ seen) :
    mergeMembershipsAux seen (.valid (some gname) :: rest) =
      .valid (some gname) :: mergeMembershipsAux (gname :: seen) rest := by
  show (if gname = "" then mergeMembershipsAux seen rest
    else
      if gname ∈ seen then mergeMembershipsAux seen rest
      else .valid (some gname) :: mergeMembershipsAux (gname :: seen) rest) = _
  rw [if_neg hg]
  exact if_neg hnot

theorem dedupBiosAux_cons_valid {seen : List String} {v : String}
    {rest : List BioEntry} (hv : v ≠ "") (hnot : v ∉ seen) :
    dedupBiosAux seen (.valid (some v) :: rest) =
      .valid (some v) :: dedupBiosAux (v :: seen) rest := by
  show (if v = "" then dedupBiosAux seen rest
    else
      if v ∈ seen then dedupBiosAux seen rest
      else .valid (some v) :: dedupBiosAux (v :: seen) rest) = _
  rw [if_neg hv]
  exact if_neg hnot

theorem dedupPhonesAux_canonical :
    ∀ (l : List PhoneEntry) (seen : List Str),
      (∀ e ∈ l, canonicalPhoneEntry e) →
      (l.filterMap phoneVal).Nodup →
      (∀ v ∈ l.filterMap phoneVal, v ∉ seen) →
      dedupPhonesAux seen l = l := by
  intro l
  induction l with
  | nil => intro seen _ _ _; rfl
  | cons e rest ih =>
    intro seen hc hn hseen
    have hce := hc e (List.mem_cons_self _ _)
    cases e with
    | malformed => simp [canonicalPhoneEntry] at hce
    | valid vo t m ft =>
      cases vo with
      | none => simp [canonicalPhoneEntry] at hce
      | some v =>
        simp only [canonicalPhoneEntry, decide_eq_true_eq] at hce
        obtain ⟨hnorm, ht, hm, hft⟩ := hce
        have hfm : (PhoneEntry.valid (some v) t m ft :: rest).filterMap phoneVal
            = v :: rest.filterMap phoneVal := by
          simp [List.filterMap_cons, phoneVal]
        rw [hfm] at hn hseen
        obtain ⟨hvnotin, hn'⟩ := List.nodup_cons.mp hn
        rw [dedupPhonesAux_cons_valid (normalize_phone_some_ne_nil hnorm) hnorm
          (hseen v (List.mem_cons_self _ _))]
        have hrebuild : rebuildPhone v t m ft = .valid (some v) t m ft := by
          unfold rebuildPhone
          rw [opt_keep_truthy ht, opt_keep_truthy hm, opt_keep_truthy hft]
        rw [hrebuild]
        congr 1
        refine ih (v :: seen) (fun x hx => hc x (List.mem_cons_of_mem _ hx)) hn' ?_
        intro w hw
        simp only [List.mem_cons]
        push_neg
        exact ⟨fun he => hvnotin (he ▸ hw), hseen w (List.mem_cons_of_mem _ hw)⟩

theorem dedupEmailsAux_canonical :
    ∀ (l : List EmailEntry) (seen : List Str),
      (∀ e ∈ l, canonicalEmailEntry e) →
      ((l.filterMap emailVal).map normalize_email).Nodup →
      (∀ v ∈ (l.filterMap emailVal).map normalize_email, v ∉ seen) →
      dedupEmailsAux seen l = l := by
  intro l
  induction l with
  | nil => intro seen _ _ _; rfl
  | cons e rest ih =>
    intro seen hc hn hseen
    have hce := hc e (List.mem_cons_self _ _)
    cases e with
    | malformed => simp [canonicalEmailEntry] at hce
    | valid vo t m =>
      cases vo with
      | none => simp [canonicalEmailEntry] at hce
      | some v =>
        simp only [canonicalEmailEntry, decide_eq_true_eq] at hce
        obtain ⟨hv, ht, hm⟩ := hce
        have hfm : ((EmailEntry.valid (some v) t m :: rest).filterMap emailVal).map
              normalize_email
            = normalize_email v :: (rest.filterMap emailVal).map normalize_email := by
          simp [List.filterMap_cons, emailVal]
        rw [hfm] at hn hseen
        obtain ⟨hvnotin, hn'⟩ := List.nodup_cons.mp hn
        rw [dedupEmailsAux_cons_valid hv (hseen _ (List.mem_cons_self _ _))]
        have hrebuild : rebuildEmail v t m = .valid (some v) t m := by
          unfold rebuildEmail
          rw [opt_keep_truthy ht, opt_keep_truthy hm]
        rw [hrebuild]
        congr 1
        refine ih (normalize_email v :: seen)
          (fun x hx => hc x (List.mem_cons_of_mem _ hx)) hn' ?_
        intro w hw
        simp only [List.mem_cons]
        push_neg
        exact ⟨fun he => hvnotin (he ▸ hw), hseen w (List.mem_cons_of_mem _ hw)⟩

theorem mergeMembershipsAux_canonical :
    ∀ (l : List MembershipEntry) (seen : List String),
      (∀ e ∈ l, canonicalMemEntry e) →
      (l.filterMap memName).Nodup →
      (∀ v ∈ l.filterMap memName, v ∉ seen) →
      mergeMembershipsAux seen l = l := by
  intro l
  induction l with
  | nil => intro seen _ _ _; rfl
  | cons e rest ih =>
    intro seen hc hn hseen
    have hce := hc e (List.mem_cons_self _ _)
    cases e with
    | notDict => simp [canonicalMemEntry] at hce
    | oddDict => simp [canonicalMemEntry] at hce
    | valid go =>
      cases go with
      | none => simp [canonicalMemEntry] at hce
      | some gname =>
        simp only [canonicalMemEntry, decide_eq_true_eq] at hce
        have hfm : (MembershipEntry.valid (some gname) :: rest).filterMap memName
            = gname :: rest.filterMap memName := by
          simp [List.filterMap_cons, memName]
        rw [hfm] at hn hseen
        obtain ⟨hvnotin, hn'⟩ := List.nodup_cons.mp hn
        rw [mergeMembershipsAux_cons_valid hce (hseen _ (List.mem_cons_self _ _))]
        congr 1
        refine ih (gname :: seen) (fun x hx => hc x (List.mem_cons_of_mem _ hx)) hn' ?_
        intro w hw
        simp only [List.mem_cons]
        push_neg
        exact ⟨fun he => hvnotin (he ▸ hw), hseen w (List.mem_cons_of_mem _ hw)⟩

theorem dedupBiosAux_canonical :
    ∀ (l : List BioEntry) (seen : List String),
      (∀ e ∈ l, canonicalBioEntry e) →
      (l.filterMap bioVal).Nodup →
      (∀ v ∈ l.filterMap bioVal, v ∉ seen) →
      dedupBiosAux seen l = l := by
  intro l
  induction l with
  | nil => intro seen _ _ _; rfl
  | cons e rest ih =>
    intro seen hc hn hseen
    have hce := hc e (List.mem_cons_self _ _)
    cases e with
    | malformed => simp [canonicalBioEntry] at hce
    | valid vo =>
      cases vo with
      | none => simp [canonicalBioEntry] at hce
      | some v =>
        simp only [canonicalBioEntry, decide_eq_true_eq] at hce
        have hfm : (BioEntry.valid (some v) :: rest).filterMap bioVal
            = v :: rest.filterMap bioVal := by
          simp [List.filterMap_cons, bioVal]
        rw [hfm] at hn hseen
        obtain ⟨hvnotin, hn'⟩ := List.nodup_cons.mp hn
        rw [dedupBiosAux_cons_valid hce (hseen _ (List.mem_cons_self _ _))]
        congr 1
        refine ih (v :: seen) (fun x hx => hc x (List.mem_cons_of_mem _ hx)) hn' ?_
        intro w hw
        simp only [List.mem_cons]
        push_neg
        exact ⟨fun he => hvnotin (he ▸ hw), hseen w (List.mem_cons_of_mem _ hw)⟩

theorem filterMap_memName_eq (l : List MembershipEntry) :
    (l.filterMap fun m =>
        match m with
        | MembershipEntry.valid g => g
        | _ => none)
      = l.filterMap memName := by
  have : (fun m =>
      match m with
      | MembershipEntry.valid g => g
      | _ => none) = memName := by
    funext m
    cases m <;> rfl
  rw [this]

theorem merge_memberships_single (p : Person)
    (hm : ∀ e ∈ p.memberships, canonicalMemEntry e)
    (hmn : (p.memberships.filterMap memName).Nodup) (g : Option String) :
    merge_memberships [p] g =
      p.memberships ++ ensureGroupExtra g (p.memberships.filterMap memName) := by
  have haux : mergeMembershipsAux [] (List.map Person.memberships [p]).flatten
      = p.memberships := by
    simp only [List.map_cons, List.map_nil, List.flatten_cons, List.flatten_nil,
      List.append_nil]
    exact mergeMembershipsAux_canonical _ [] hm hmn (by simp)
  simp only [merge_memberships, haux, filterMap_memName_eq]
  cases g with
  | none => simp [ensureGroupExtra]
  | some gname =>
    simp only [ensureGroupExtra]
    split_ifs with hcond
    · rfl
    · exact (List.append_nil _).symm

theorem deduplicate_phones_single (p : Person)
    (hp : ∀ e ∈ p.phoneNumbers, canonicalPhoneEntry e)
    (hpn : (p.phoneNumbers.filterMap phoneVal).Nodup) :
    deduplicate_phones [p] = p.phoneNumbers := by
  unfold deduplicate_phones
  simp only [List.map_cons, List.map_nil, List.flatten_cons, List.flatten_nil,
    List.append_nil]
  exact dedupPhonesAux_canonical _ [] hp hpn (by simp)

theorem deduplicate_emails_single (p : Person)
    (he : ∀ e ∈ p.emailAddresses, canonicalEmailEntry e)
    (hen : ((p.emailAddresses.filterMap emailVal).map normalize_email).Nodup) :
    deduplicate_emails [p] = p.emailAddresses := by
  unfold deduplicate_emails
  simp only [List.map_cons, List.map_nil, List.flatten_cons, List.flatten_nil,
    List.append_nil]
  exact dedupEmailsAux_canonical _ [] he hen (by simp)

theorem merge_biographies_single (p : Person)
    (hb : ∀ e ∈ p.biographies, canonicalBioEntry e)
    (hbn : (p.biographies.filterMap bioVal).Nodup) :
    merge_biographies p [] = p.biographies := by
  unfold merge_biographies
  have hob : mergeOtherBios (bioSeenValues p.biographies) [] = [] := rfl
  rw [hob, List.append_nil]
  exact dedupBiosAux_canonical _ [] hb hbn (by simp)

/-- C7 (counterexample): `union_fields(p, [])` rebuilds the record from
the five merged fields only, so a field such as `etag` is dropped rather
than kept unchanged, refuting the equality-modulo-memberships claim. -/
theorem C7_counterexample :
    union_fields { etag := some "E1" } [] none ≠ ({ etag := some "E1" } : Person) ∧
    ({ etag := some "E1" } : Person).etag = some "E1" ∧
    (union_fields { etag := some "E1" } [] none).etag = none := by
  refine ⟨?_, rfl, rfl⟩
  decide

/-- C7 (amended): on canonical person records — entries already in the
deduplicated, normalised form the merge emits, and no fields outside the
five `union_fields` rebuilds — `union_fields(p, [], ensure_group=g)`
equals `p` except that memberships may additionally gain the single
entry for `g`; on other records fields outside the five are dropped. -/
theorem C7_union_fields_canonical (p : Person) (g : Option String)
    (h : personCanonical p) :
    union_fields p [] g =
      { p with memberships :=
          p.memberships ++ ensureGroupExtra g (p.memberships.filterMap memName) } := by
  obtain ⟨h1, h2, h3, h4, hp, hpn, he, hen, hm, hmn, hb, hbn⟩ := h
  have hphones := deduplicate_phones_single p hp hpn
  have hemails := deduplicate_emails_single p he hen
  have hmems := merge_memberships_single p hm hmn g
  have hbios := merge_biographies_single p hb hbn
  unfold union_fields
  ext : 1 <;>
    simp [hphones, hemails, hmems, hbios, h1, h2, h3, h4]

/-- C7 witness: the amended statement at the empty canonical record with
a configured group. -/
theorem C7_union_fields_canonical_witness :
    union_fields {} [] (some "contactGroups/team") =
      { memberships := [MembershipEntry.valid (some "contactGroups/team")] } :=
  (C7_union_fields_canonical {} (some "contactGroups/team")
      (by unfold personCanonical; simp)).trans
    (by decide)

theorem exists_other_name {L : List MatchCandidate} {x : MatchCandidate}
    (hnodup : (L.map MatchCandidate.resource_name).Nodup) (hlen : 2 ≤ L.length)
    (hx : x ∈ L) : ∃ c ∈ L, c.resource_name ≠ x.resource_name := by
  by_contra hc
  push_neg at hc
  match L, hlen with
  | a :: b :: t, _ =>
    have ha := hc a (List.mem_cons_self _ _)
    have hb := hc b (List.mem_cons_of_mem _ (List.mem_cons_self _ _))
    simp only [List.map_cons, List.nodup_cons, List.mem_cons] at hnodup
    exact hnodup.1 (Or.inl (ha.trans hb.symm))

/-- `merge_contacts` on a primary with a truthy etag and a duplicate
list already disjoint from it returns the primary with the three
effects in order. -/
theorem merge_contacts_ok {primary : MatchCandidate} {dups : List MatchCandidate}
    (hdis : ∀ c ∈ dups, c.resource_name ≠ primary.resource_name)
    (hne : dups ≠ []) (hetag : pyTruthyS primary.person.etag) :
    merge_contacts primary dups =
      .ok (primary,
        [.updateContact primary.resource_name (primary.person.etag.getD ""),
         .batchDelete (dups.map MatchCandidate.resource_name),
         .remapLinks primary.resource_name (dups.map MatchCandidate.resource_name)]) := by
  unfold merge_contacts
  have hfilter : dups.filter (fun c => c.resource_name ≠ primary.resource_name) = dups :=
    List.filter_eq_self.mpr (fun a ha => by simpa using hdis a ha)
  rw [hfilter, if_neg hne, if_neg (by simp [hetag])]

/-- Step-by-step reduction of `post_create_merge` on its merge path. -/
theorem post_create_merge_eq (i : Int) (resourceName : String)
    (searchResults : List MatchCandidate) (fetchedNew : Option MatchCandidate)
    (nc : MatchCandidate) (fo : Option MatchCandidate) (mops : List Op)
    (hlen : ¬ ((postCreateCandidates resourceName searchResults fetchedNew).length ≤ 1))
    (hfind1 : (postCreateCandidates resourceName searchResults fetchedNew).find?
        (fun c => c.resource_name = resourceName) = some nc)
    (hfind2 : (postCreateCandidates resourceName searchResults fetchedNew).find?
        (fun c => c.resource_name ≠ resourceName ∧ c.person.hasExternalId (some i))
      = fo)
    (hdup : (postCreateCandidates resourceName searchResults fetchedNew).filter
        (fun c => c.resource_name ≠ (fo.getD nc).resource_name) ≠ [])
    (hmerge : merge_contacts (fo.getD nc)
        ((postCreateCandidates resourceName searchResults fetchedNew).filter
          (fun c => c.resource_name ≠ (fo.getD nc).resource_name))
      = .ok (fo.getD nc, mops)) :
    post_create_merge (some i) resourceName searchResults fetchedNew =
      ((fo.getD nc).resource_name,
        mops ++ [.saveLink (intStr i) (fo.getD nc).resource_name] ++
          [.remapLinks (fo.getD nc).resource_name
            (((postCreateCandidates resourceName searchResults fetchedNew).filter
                (fun c => c.resource_name ≠ (fo.getD nc).resource_name)).map
              MatchCandidate.resource_name)]) := by
  unfold post_create_merge
  rw [if_neg hlen, hfind1]
  dsimp only
  rw [hfind2]
  cases fo with
  | none =>
    simp only [Option.getD_none] at hdup hmerge ⊢
    rw [if_neg hdup, hmerge]
  | some ex =>
    simp only [Option.getD_some] at hdup hmerge ⊢
    rw [if_neg hdup, hmerge]

/-- C1: when the post-create re-match reveals two or more distinct
candidates (the new resource among them, all carrying etags, the plan
having a source contact id), `_post_create_merge` selects a primary
preferring a candidate other than the newly created one that carries
the source id in its externalIds (falling back to the new one), merges
every other candidate into it (update on the primary then batch delete
of the duplicates), saves the link for the source id to the merged
primary, and remaps stored links from the deleted duplicates to it. -/
theorem C1_post_create_race (i : Int) (resourceName : String)
    (searchResults : List MatchCandidate) (fetchedNew : Option MatchCandidate)
    (hnodup : ((postCreateCandidates resourceName searchResults fetchedNew).map
        MatchCandidate.resource_name).Nodup)
    (hlen : 2 ≤ (postCreateCandidates resourceName searchResults fetchedNew).length)
    (hmem : ∃ c ∈ postCreateCandidates resourceName searchResults fetchedNew,
        c.resource_name = resourceName)
    (hetag : ∀ c ∈ postCreateCandidates resourceName searchResults fetchedNew,
        pyTruthyS c.person.etag) :
    ∃ primary duplicates,
      primary ∈ postCreateCandidates resourceName searchResults fetchedNew ∧
      duplicates = (postCreateCandidates resourceName searchResults fetchedNew).filter
        (fun c => c.resource_name ≠ primary.resource_name) ∧
      duplicates ≠ [] ∧
      ((∃ c ∈ postCreateCandidates resourceName searchResults fetchedNew,
          c.resource_name ≠ resourceName ∧ c.person.hasExternalId (some i)) →
        primary.resource_name ≠ resourceName ∧ primary.person.hasExternalId (some i)) ∧
      ((∀ c ∈ postCreateCandidates resourceName searchResults fetchedNew,
          c.resource_name ≠ resourceName → ¬ c.person.hasExternalId (some i)) →
        primary.resource_name = resourceName) ∧
      post_create_merge (some i) resourceName searchResults fetchedNew =
        (primary.resource_name,
          [Op.updateContact primary.resource_name (primary.person.etag.getD ""),
           Op.batchDelete (duplicates.map MatchCandidate.resource_name),
           Op.remapLinks primary.resource_name
             (duplicates.map MatchCandidate.resource_name),
           Op.saveLink (intStr i) primary.resource_name,
           Op.remapLinks primary.resource_name
             (duplicates.map MatchCandidate.resource_name)]) := by
  have hlen' : ¬ ((postCreateCandidates resourceName searchResults fetchedNew).length
      ≤ 1) := by omega
  have hfind1s : ((postCreateCandidates resourceName searchResults fetchedNew).find?
      (fun c => c.resource_name = resourceName)).isSome := by
    rw [List.find?_isSome]
    obtain ⟨c, hc, hcp⟩ := hmem
    exact ⟨c, hc, by simpa using hcp⟩
  obtain ⟨nc, hnc⟩ := Option.isSome_iff_exists.mp hfind1s
  have hncm : nc ∈ postCreateCandidates resourceName searchResults fetchedNew :=
    List.mem_of_find?_eq_some hnc
  have hncp : nc.resource_name = resourceName := by simpa using List.find?_some hnc
  cases hfo : (postCreateCandidates resourceName searchResults fetchedNew).find?
      (fun c => c.resource_name ≠ resourceName ∧ c.person.hasExternalId (some i)) with
  | some ex =>
    have hexm : ex ∈ postCreateCandidates resourceName searchResults fetchedNew :=
      List.mem_of_find?_eq_some hfo
    have hexp : ex.resource_name ≠ resourceName ∧ ex.person.hasExternalId (some i) := by
      simpa using List.find?_some hfo
    have hdup : (postCreateCandidates resourceName searchResults fetchedNew).filter
        (fun c => c.resource_name ≠ ex.resource_name) ≠ [] := by
      obtain ⟨c, hcm, hcz⟩ := exists_other_name hnodup hlen hexm
      intro hnil
      rw [List.filter_eq_nil_iff] at hnil
      exact hnil c hcm (by simpa using hcz)
    have hmerge := @merge_contacts_ok ex
      ((postCreateCandidates resourceName searchResults fetchedNew).filter
        (fun c => c.resource_name ≠ ex.resource_name))
      (fun c hc => by simpa using (List.mem_filter.mp hc).2)
      hdup (hetag ex hexm)
    have heq := post_create_merge_eq i resourceName searchResults fetchedNew nc
      (some ex) _ hlen' hnc hfo
      (by simpa using hdup) (by simpa using hmerge)
    refine ⟨ex, _, hexm, rfl, hdup, fun _ => hexp, ?_, ?_⟩
    · intro hall
      exact absurd hexp.2 (hall ex hexm hexp.1)
    · rw [heq]
      simp
  | none =>
    have hdup : (postCreateCandidates resourceName searchResults fetchedNew).filter
        (fun c => c.resource_name ≠ nc.resource_name) ≠ [] := by
      obtain ⟨c, hcm, hcz⟩ := exists_other_name hnodup hlen hncm
      intro hnil
      rw [List.filter_eq_nil_iff] at hnil
      exact hnil c hcm (by simpa using hcz)
    have hmerge := @merge_contacts_ok nc
      ((postCreateCandidates resourceName searchResults fetchedNew).filter
        (fun c => c.resource_name ≠ nc.resource_name))
      (fun c hc => by simpa using (List.mem_filter.mp hc).2)
      hdup (hetag nc hncm)
    have heq := post_create_merge_eq i resourceName searchResults fetchedNew nc
      none _ hlen' hnc hfo
      (by simpa using hdup) (by simpa using hmerge)
    refine ⟨nc, _, hncm, rfl, hdup, ?_, fun _ => hncp, ?_⟩
    · intro hex
      obtain ⟨c, hcm, hc1, hc2⟩ := hex
      rw [List.find?_eq_none] at hfo
      exact absurd (by simpa using And.intro hc1 hc2) (hfo c hcm)
    · rw [heq]
      simp

/-- C1 witness: the specification's race scenario — the post-create
match finds the new resource and an existing contact already tagged with
the source id. -/
theorem C1_post_create_race_witness :
    ∃ primary duplicates,
      primary ∈ postCreateCandidates "people/new"
        [⟨"people/new", { etag := some "E2" }, [], [], none⟩,
         ⟨"people/existing",
           { etag := some "E1",
             externalIds := [.valid (some "amo_id") (some "5") none] }, [], [], none⟩]
        none ∧
      duplicates = (postCreateCandidates "people/new"
        [⟨"people/new", { etag := some "E2" }, [], [], none⟩,
         ⟨"people/existing",
           { etag := some "E1",
             externalIds := [.valid (some "amo_id") (some "5") none] }, [], [], none⟩]
        none).filter (fun c => c.resource_name ≠ primary.resource_name) ∧
      duplicates ≠ [] ∧
      ((∃ c ∈ postCreateCandidates "people/new"
          [⟨"people/new", { etag := some "E2" }, [], [], none⟩,
           ⟨"people/existing",
             { etag := some "E1",
               externalIds := [.valid (some "amo_id") (some "5") none] }, [], [], none⟩]
          none,
          c.resource_name ≠ "people/new" ∧ c.person.hasExternalId (some 5)) →
        primary.resource_name ≠ "people/new" ∧ primary.person.hasExternalId (some 5)) ∧
      ((∀ c ∈ postCreateCandidates "people/new"
          [⟨"people/new", { etag := some "E2" }, [], [], none⟩,
           ⟨"people/existing",
             { etag := some "E1",
               externalIds := [.valid (some "amo_id") (some "5") none] }, [], [], none⟩]
          none,
          c.resource_name ≠ "people/new" → ¬ c.person.hasExternalId (some 5)) →
        primary.resource_name = "people/new") ∧
      post_create_merge (some 5) "people/new"
        [⟨"people/new", { etag := some "E2" }, [], [], none⟩,
         ⟨"people/existing",
           { etag := some "E1",
             externalIds := [.valid (some "amo_id") (some "5") none] }, [], [], none⟩]
        none =
        (primary.resource_name,
          [Op.updateContact primary.resource_name (primary.person.etag.getD ""),
           Op.batchDelete (duplicates.map MatchCandidate.resource_name),
           Op.remapLinks primary.resource_name
             (duplicates.map MatchCandidate.resource_name),
           Op.saveLink (intStr 5) primary.resource_name,
           Op.remapLinks primary.resource_name
             (duplicates.map MatchCandidate.resource_name)]) :=
  C1_post_create_race 5 "people/new"
    [⟨"people/new", { etag := some "E2" }, [], [], none⟩,
     ⟨"people/existing",
       { etag := some "E1",
         externalIds := [.valid (some "amo_id") (some "5") none] }, [], [], none⟩]
    none (by decide) (by decide) (by decide) (by decide)

end AmoSync
